import Mathlib

/-!
# detail/withTypeContent.js

A shallow embedding of the `withTypeContent` mixin: the tracker of cancellable
data requests, the event handlers of the detail panel, the menu builders and
the watcher of concept changes, followed by theorems about them.

Asynchronous behaviour is modelled by explicit traces: every callback that the
source hands to a collaborator (`promise.then`, `_.defer`, `require`) is kept
in the state as pending work, and a later step of the trace runs it.
-/

namespace WithTypeContent

/-! ## Lifecycle and cancellation tracker -/

/-- The handle returned by the underlying data request. `id` is the identity of
the object, `cancel` tells whether `promise.cancel` is truthy. -/
structure Promise where
  id : Nat
  cancel : Bool
deriving DecidableEq, Repr

/-- Arguments of a data request (service, method, parameters). -/
abbrev Args := List String

/-- The state the tracker works on, for all the instances of one component.
An instance is named by a number (`self`). -/
structure Tracker where
  /-- The array `this._promisesToCancel`. Line 16 creates it in the body of the
  mixin, which runs once with the prototype of the component as `this`; lines
  36 and 208 change it in place. The instances of the component therefore
  share this one array. -/
  _promisesToCancel : List Promise
  /-- Invocations of a handle's `cancel`, oldest first, each with the instance
  whose `cancel()` made it. -/
  cancelCalls : List (Nat × Promise)
  /-- Continuations of line 39 that have not run: the instance `self` that
  attached it and the handle it is attached to. -/
  thens : List (Nat × Promise)
  /-- Events triggered on an instance, oldest first. -/
  triggered : List (Nat × String)
deriving DecidableEq, Repr

/-- State after the mixin body has run (`this._promisesToCancel = []`, line 16)
and before any instance has done anything. -/
def Tracker.init : Tracker :=
  { _promisesToCancel := [], cancelCalls := [], thens := [], triggered := [] }

/-- Call `self.trigger(name)`. -/
def Tracker.trigger (c : Tracker) (self : Nat) (name : String) : Tracker :=
  { c with triggered := c.triggered ++ [(self, name)] }

/-- The wrapper installed by `this.around('dataRequest', ...)` (lines 32-44),
called on the instance `self`. `func` is the wrapped request and `args` are
`arguments.slice(1)`. -/
def dataRequest (self : Nat) (func : Args → Promise) (args : Args) (c : Tracker) :
    Promise × Tracker :=
  let promise := func args
  let c1 :=
    if promise.cancel then
      { c with _promisesToCancel := c._promisesToCancel ++ [promise] }
    else c
  let c2 := { c1 with thens := c1.thens ++ [(self, promise)] }
  (promise, c2)

/-- The continuation `function() { self.trigger('finishedLoadingTypeContent'); }`
of lines 39-41. -/
def onFulfilled (self : Nat) (c : Tracker) : Tracker :=
  c.trigger self "finishedLoadingTypeContent"

/-- Modelled from the spec: the handle "supports a completion continuation";
its implementation (`util/promise`) is not part of the module. When the handle
with identity `pid` completes, every continuation attached to it runs, once. -/
def complete (pid : Nat) (c : Tracker) : Tracker :=
  let fired := c.thens.filter (fun e => e.2.id == pid)
  let c1 := { c with thens := c.thens.filter (fun e => !(e.2.id == pid)) }
  fired.foldl (fun acc e => onFulfilled e.1 acc) c1

/-- Method `cancel` (lines 206-209), called on the instance `self`:
`_.invoke(list, 'cancel')`, then `list.length = 0`. -/
def cancel (self : Nat) (c : Tracker) : Tracker :=
  { c with
    cancelCalls := c.cancelCalls ++ c._promisesToCancel.map (fun p => (self, p))
    _promisesToCancel := [] }

/-- What can happen to the instances of a component, as far as the tracker is
concerned. -/
inductive Action where
  | request (self : Nat) (func : Args → Promise) (args : Args)
  | complete (pid : Nat)
  | cancel (self : Nat)

/-- One step of a trace. -/
def step (c : Tracker) : Action → Tracker
  | .request self func args => (dataRequest self func args c).2
  | .complete pid => complete pid c
  | .cancel self => cancel self c

/-- Run a trace from a state. -/
def run (c : Tracker) (t : List Action) : Tracker :=
  t.foldl step c

/-- Whether the action is the completion of the handle `pid`. -/
def Action.completes (pid : Nat) : Action → Bool
  | .complete q => q == pid
  | _ => false

/-- Number of requests of a trace whose handle completes later in the trace. -/
def completedRequests : List Action → Nat
  | [] => 0
  | .request _ func args :: rest =>
      (if rest.any (Action.completes (func args).id) then 1 else 0) + completedRequests rest
  | .complete _ :: rest => completedRequests rest
  | .cancel _ :: rest => completedRequests rest

/-- Number of `finishedLoadingTypeContent` notifications emitted so far. -/
def notifications (c : Tracker) : Nat :=
  (c.triggered.map Prod.snd).count "finishedLoadingTypeContent"

/-- Number of invocations of `cancel` on the handle `p` so far. -/
def cancelsOn (p : Promise) (c : Tracker) : Nat :=
  (c.cancelCalls.map Prod.snd).count p

/-- The requests `rs` as actions; each comes with the instance that issues it. -/
def requests (rs : List (Nat × (Args → Promise) × Args)) : List Action :=
  rs.map (fun r => Action.request r.1 r.2.1 r.2.2)

/-- The instance `self` issues the requests `rs` one after the other. -/
def issue (self : Nat) (c : Tracker) (rs : List ((Args → Promise) × Args)) : Tracker :=
  run c (rs.map (fun r => Action.request self r.1 r.2))

/-- The handles the requests `rs` return, in order. -/
def handles (rs : List ((Args → Promise) × Args)) : List Promise :=
  rs.map (fun r => r.1 r.2)

/-! ## Entities, session state and menu items -/

/-- A property of an entity. -/
structure Property where
  name : String
  value : String
deriving DecidableEq, Repr

/-- An entity: the displayed one (`this.attr.data`) or an entry of a
`verticesUpdated` batch. `properties` is `none` when the key is absent. -/
structure Vertex where
  id : String
  properties : Option (List Property)
deriving DecidableEq, Repr

/-- The concept descriptor `F.vertex.concept` returns. -/
structure Concept where
  id : String
deriving DecidableEq, Repr

/-- An entry of `visalloData.selectedObjectsStack`. -/
structure SelectedObjects where
  title : String
  vertexIds : List String
  edgeIds : List String
deriving DecidableEq, Repr

/-- The global `visalloData`. `selectedObjectsStack` is `none` when the key is
not `in` the object. -/
structure VisalloData where
  selectedObjectsStack : Option (List SelectedObjects)
  currentWorkspaceId : String
deriving DecidableEq, Repr

/-- The `options` object of an event payload; an absent key is `false`. -/
structure Options where
  ignoreMultipleSelectionOverride : Bool
  forceSelectEvenIfSame : Bool
deriving DecidableEq, Repr

/-- The `eventData` object of a menu item; an absent key is `none`. -/
structure EventData where
  vertexIds : Option (List String)
  edgeIds : Option (List String)
  options : Option Options
  sourceUrl : Option String
deriving DecidableEq, Repr

/-- A menu item description; an absent key is `none`. -/
structure MenuItem where
  title : Option String
  subtitle : Option String
  cls : Option String
  event : Option String
  eventData : Option EventData
deriving DecidableEq, Repr

/-- The object literal of lines 168-179, built from the stack entry `s`. -/
def historyItem (s : SelectedObjects) : MenuItem :=
  { title := some s.title
    subtitle := none
    cls := some "history-item"
    event := some "selectObjects"
    eventData := some
      { vertexIds := some s.vertexIds
        edgeIds := some s.edgeIds
        options := some { ignoreMultipleSelectionOverride := true, forceSelectEvenIfSame := false }
        sourceUrl := none } }

/-- The object literal of lines 182-185. -/
def previouslyViewed : MenuItem :=
  { title := some "Previously Viewed", subtitle := none, cls := some "disabled",
    event := none, eventData := none }

/-- The loop of lines 166-180: `k` is `i + 1`, so the loop runs while `k > 0`
and reads `stack[k - 1]`. -/
def historyLoop (stack : List SelectedObjects) : Nat → List MenuItem → List MenuItem
  | 0, menus => menus
  | k + 1, menus =>
    match stack[k]? with
    | some s => historyLoop stack k (menus ++ [historyItem s])
    | none => historyLoop stack k menus

/-- Method `selectionHistory` (lines 161-189). `DIVIDER` is `Toolbar.ITEMS.DIVIDER`.
The second component is `visalloData` after the call. -/
def selectionHistory (DIVIDER : MenuItem) (visalloData : VisalloData) :
    Option (List MenuItem) × VisalloData :=
  match visalloData.selectedObjectsStack with
  | none => (none, visalloData)
  | some stack =>
    let menus := historyLoop stack stack.length []
    let menus := if menus.length ≠ 0 then DIVIDER :: previouslyViewed :: menus else menus
    (some menus, visalloData)

/-- Call `_.findWhere(properties, { name: name })`: the first property with that name. -/
def findWhereName (properties : Option (List Property)) (name : String) : Option Property :=
  match properties with
  | none => none
  | some ps => ps.find? (fun p => p.name == name)

/-- Method `sourceUrlToolbarItem` (lines 191-204). `i18n` is the message lookup. -/
def sourceUrlToolbarItem (i18n : String → String) (data : Vertex) : Option MenuItem :=
  match findWhereName data.properties "http://visallo.org#sourceUrl" with
  | some sourceUrl =>
    some
      { title := some (i18n "detail.toolbar.open.source_url")
        subtitle := some (i18n "detail.toolbar.open.source_url.subtitle")
        cls := none
        event := some "openSourceUrl"
        eventData := some
          { vertexIds := none, edgeIds := none, options := none,
            sourceUrl := some sourceUrl.value } }
  | none => none

/-! ## External-change watcher -/

/-- An event triggered on `document`. -/
structure DocumentEvent where
  type : String
  vertices : List Vertex
  options : Options
deriving DecidableEq, Repr

/-- The payload of `verticesUpdated`; `vertices` is `none` when the key is absent. -/
structure VerticesUpdated where
  vertices : Option (List Vertex)
deriving DecidableEq, Repr

/-- Lines 49-50: `previousConcept = data.properties && F.vertex.concept(data)` and
`previousConceptId = previousConcept && previousConcept.id`; a value that is
`undefined` is `none`. -/
def previousConceptId (concept : Vertex → Option Concept) (data : Vertex) : Option String :=
  let previousConcept := if data.properties.isSome then concept data else none
  previousConcept.map (·.id)

/-- Truthiness of a string that may be undefined. -/
def truthyId : Option String → Bool
  | none => false
  | some s => s != ""

/-- Call `_.findWhere(vertices, { id: id })`: the first entry with that id. -/
def findWhereId (vertices : List Vertex) (id : String) : Option Vertex :=
  vertices.find? (fun v => v.id == id)

/-- The `verticesUpdated` listener (lines 63-72). The result is the argument
with which `self.debouncedConceptTypeChange` is called, `none` when it is not
called. -/
def onVerticesUpdated (concept : Vertex → Option Concept) (attrData : Vertex)
    (previousConceptId : Option String) (data : Option VerticesUpdated) : Option Vertex :=
  match data with
  | none => none
  | some d =>
    match d.vertices with
    | none => none
    | some vertices =>
      match findWhereId vertices attrData.id with
      | none => none
      | some current =>
        match concept current with
        | none => none
        | some c =>
          if truthyId previousConceptId && (some c.id != previousConceptId) then some current
          else none

/-- Method `debouncedConceptTypeChange` before it is wrapped (lines 152-159):
the event it triggers on `document`. -/
def debouncedConceptTypeChange (vertex : Vertex) : DocumentEvent :=
  { type := "selectObjects"
    vertices := [vertex]
    options := { ignoreMultipleSelectionOverride := false, forceSelectEvenIfSame := true } }

/-- The watcher: the baseline captured by `after('initialize')`, the argument
of the pending call of the debounced handler, and the events triggered on
`document`. -/
structure Watcher where
  attrData : Vertex
  previousConceptId : Option String
  pending : Option Vertex
  documentEvents : List DocumentEvent
deriving DecidableEq, Repr

/-- State set up by `after('initialize')` (lines 47-73). -/
def Watcher.afterInitialize (concept : Vertex → Option Concept) (data : Vertex) : Watcher :=
  { attrData := data, previousConceptId := WithTypeContent.previousConceptId concept data,
    pending := none, documentEvents := [] }

/-- A `verticesUpdated` broadcast reaches the listener. A call of the
debounced handler replaces the pending one. -/
def Watcher.verticesUpdated (concept : Vertex → Option Concept) (w : Watcher)
    (data : Option VerticesUpdated) : Watcher :=
  match onVerticesUpdated concept w.attrData w.previousConceptId data with
  | some current => { w with pending := some current }
  | none => w

/-- Modelled from the spec: `_.debounce(f, 500)` is a "trailing-edge debounce,
500 ms window - rapid repeated broadcasts collapse to one invocation after the
quiet period"; the library is not part of the module. The quiet period has
elapsed: the pending call, if any, runs. -/
def Watcher.quiet (w : Watcher) : Watcher :=
  match w.pending with
  | some v =>
    { w with pending := none, documentEvents := w.documentEvents ++ [debouncedConceptTypeChange v] }
  | none => w

/-! ## Open fullscreen -/

/-- A JavaScript value, as far as `onOpenFullscreen` inspects it. -/
inductive JsVal where
  | undefined
  | null
  | bool (b : Bool)
  | num (n : Int)
  | str (s : String)
  | arr (items : List JsVal)
  | obj (fields : List (String × JsVal))

/-- Truthiness of a value. -/
def JsVal.truthy : JsVal → Bool
  | .undefined => false
  | .null => false
  | .bool b => b
  | .num n => n != 0
  | .str s => s != ""
  | .arr _ => true
  | .obj _ => true

/-- Look a key up in the fields of an object literal. -/
def JsVal.lookup (key : String) : List (String × JsVal) → JsVal
  | [] => .undefined
  | (k, v) :: rest => if k == key then v else JsVal.lookup key rest

/-- Property access `v.key` on a value that is not `null` or `undefined`: only
objects carry named properties here. -/
def JsVal.get (v : JsVal) (key : String) : JsVal :=
  match v with
  | .obj fields => JsVal.lookup key fields
  | _ => .undefined

/-- Function `_.isObject`. -/
def JsVal.isObject : JsVal → Bool
  | .arr _ => true
  | .obj _ => true
  | _ => false

/-- Function `_.isArray`. -/
def JsVal.isArray : JsVal → Bool
  | .arr _ => true
  | _ => false

/-- The variable `vertices` of lines 126-130. -/
def fullscreenVertices (viewing data : JsVal) : JsVal :=
  if data.truthy && (data.get "vertices").truthy then
    data.get "vertices"
  else if viewing.isObject && (viewing.get "vertices").truthy then
    viewing.get "vertices"
  else
    viewing

/-- The first argument of `F.vertexUrl.url` (line 132):
`_.isArray(vertices) ? vertices : [vertices]`. -/
def fullscreenList (vertices : JsVal) : List JsVal :=
  match vertices with
  | .arr items => items
  | v => [v]

/-- Handler `onOpenFullscreen` (lines 124-136). `url` is `F.vertexUrl.url`; the
result is the argument of `window.open`. -/
def onOpenFullscreen (url : List JsVal → String → String) (visalloData : VisalloData)
    (attrData : JsVal) (data : JsVal) : String :=
  let viewing := attrData
  let vertices := fullscreenVertices viewing data
  url (fullscreenList vertices) visalloData.currentWorkspaceId

/-! ## The rendered subtree -/

/-- An element: its identity, tag, class names, own text and child elements. -/
inductive Dom where
  | node (id : Nat) (tag : String) (classes : List String) (text : String)
      (children : List Dom)

/-- Identity of the element. -/
def Dom.id : Dom → Nat
  | .node i _ _ _ _ => i

/-- Class names of the element. -/
def Dom.classes : Dom → List String
  | .node _ _ cl _ _ => cl

/-- Own text of the element. -/
def Dom.text : Dom → String
  | .node _ _ _ tx _ => tx

/-- Child elements. -/
def Dom.children : Dom → List Dom
  | .node _ _ _ _ kids => kids

/-- Whether the element matches the class selector `.c`. -/
def Dom.hasClass (d : Dom) (c : String) : Bool :=
  d.classes.contains c

mutual
/-- Call `$(d).find('.c')`: the descendants of `d` with class `c`, in document order. -/
def Dom.find (c : String) : Dom → List Dom
  | .node _ _ _ _ kids => Dom.findL c kids
/-- The elements of a list of siblings and their descendants that have class `c`. -/
def Dom.findL (c : String) : List Dom → List Dom
  | [] => []
  | d :: ds => (if d.hasClass c then [d] else []) ++ (Dom.find c d ++ Dom.findL c ds)
end

mutual
/-- Call `$(d).find('.c').remove()`: `d` without its descendants of class `c`. -/
def Dom.remove (c : String) : Dom → Dom
  | .node i t cl tx kids => .node i t cl tx (Dom.removeL c kids)
/-- A list of siblings without the elements of class `c`, at any depth. -/
def Dom.removeL (c : String) : List Dom → List Dom
  | [] => []
  | d :: ds => if d.hasClass c then Dom.removeL c ds else Dom.remove c d :: Dom.removeL c ds
end

/-- Call `$(new).appendTo($(d))`: `new` becomes the last child of `d`. -/
def Dom.append (new : Dom) : Dom → Dom
  | .node i t cl tx kids => .node i t cl tx (kids ++ [new])

mutual
/-- The chain of elements from the one with identity `target` up to `d`, when
`target` is `d` or one of its descendants. -/
def Dom.chain (target : Nat) : Dom → Option (List Dom)
  | .node i t cl tx kids =>
    if i = target then some [.node i t cl tx kids]
    else
      match Dom.chainL target kids with
      | some ch => some (ch ++ [.node i t cl tx kids])
      | none => none
/-- The chain from `target` up to the first of the siblings that contains it. -/
def Dom.chainL (target : Nat) : List Dom → Option (List Dom)
  | [] => none
  | d :: ds =>
    match Dom.chain target d with
    | some ch => some ch
    | none => Dom.chainL target ds
end

/-- Call `$(target).closest('.c')` in the document `doc`: the nearest element
with class `c` among `target` and its ancestors. -/
def closest (c : String) (target : Nat) (doc : Dom) : Option Dom :=
  match Dom.chain target doc with
  | some ch => ch.find? (fun d => d.hasClass c)
  | none => none

/-! ## Redirect of property events -/

/-- An event: its type and the identity of `event.target`. -/
structure Event where
  type : String
  target : Nat
deriving DecidableEq, Repr

/-- A callback handed to `_.defer`: `properties.trigger(type, data)`. -/
structure Deferred where
  /-- Identities of the elements of the set `properties`. -/
  targets : List Nat
  type : String
  data : JsVal

/-- What a call of `redirectToPropertiesComponent` does. -/
structure Redirect where
  /-- Whether `event.stopPropagation()` is called. -/
  stopPropagation : Bool
  /-- Callbacks handed to `_.defer`, in order. -/
  deferred : List Deferred
  /-- Message of the `Error` thrown, `none` when the handler returns. -/
  thrown : Option String

/-- Handler `redirectToPropertiesComponent` (lines 75-92). `doc` is the
document that holds `event.target`, `node` is `this.$node`. -/
def redirectToPropertiesComponent (doc : Dom) (node : Dom) (event : Event) (data : JsVal) :
    Redirect :=
  if (closest "comments" event.target doc).isSome then
    { stopPropagation := false, deferred := [], thrown := none }
  else if (closest "properties" event.target doc).isNone then
    let properties := Dom.find "properties" node
    if properties.length ≠ 0 then
      { stopPropagation := true
        deferred := [{ targets := properties.map Dom.id, type := event.type, data := data }]
        thrown := none }
    else
      { stopPropagation := true, deferred := []
        thrown := some "Unable to redirect properties request" }
  else
    { stopPropagation := false, deferred := [], thrown := none }

/-! ## Overlay and delete form -/

/-- The payload of `maskWithOverlay`. `done` and `loading` are the values of
the keys as the handler reads them (`undefined` when absent); `text` is a
string, `none` when the key is absent. -/
structure MaskData where
  done : JsVal
  loading : JsVal
  text : Option String

/-- Call `toggleClass(cls, state)` of jQuery on the class names of an element:
a boolean `state` adds (`true`) or removes (`false`) the class, and with any
other `state` the class is toggled. -/
def toggleClass (cls : String) (state : JsVal) (classes : List String) : List String :=
  match state with
  | .bool true => if classes.contains cls then classes else classes ++ [cls]
  | .bool false => classes.filter (fun c => c != cls)
  | _ => if classes.contains cls then classes.filter (fun c => c != cls) else classes ++ [cls]

/-- The rendered part of the component. -/
structure Panel where
  /-- The subtree `this.$node`. -/
  node : Dom
  /-- Identity the next created element gets. -/
  nextId : Nat
  /-- Pending `require` callbacks of `onDeleteItem`: the identities of the
  elements of the captured `$container`. -/
  loads : List (List Nat)
  /-- Identities of the nodes passed to `DeleteForm.attachTo`, oldest first. -/
  attached : List Nat

/-- The element built by lines 144-147, with identity `id` (and `id + 1` for
the heading): `addClass('detail-overlay')` on a new `div`, then
`toggleClass('detail-overlay-loading', data.loading)`, then a heading whose
text is set by `text(data.text)`, which sets nothing for `undefined`. -/
def overlay (id : Nat) (data : MaskData) : Dom :=
  .node id "div"
    (toggleClass "detail-overlay-loading" data.loading ["detail-overlay"])
    ""
    [.node (id + 1) "h1" [] (data.text.getD "") []]

/-- Handler `onMaskWithOverlay` (lines 138-150). The second component tells
whether `event.stopPropagation()` is called. -/
def onMaskWithOverlay (data : MaskData) (s : Panel) : Panel × Bool :=
  if data.done.truthy then
    ({ s with node := Dom.remove "detail-overlay" s.node }, true)
  else
    ({ s with node := Dom.append (overlay s.nextId data) s.node, nextId := s.nextId + 2 }, true)

/-- Handle a sequence of `maskWithOverlay` events. -/
def maskAll (s : Panel) (ds : List MaskData) : Panel :=
  ds.foldl (fun acc d => (onMaskWithOverlay d acc).1) s

/-- Number of payloads after the last one that had a truthy `done`. -/
def sinceDone (ds : List MaskData) : Nat :=
  (ds.reverse.takeWhile (fun d => !d.done.truthy)).length

mutual
/-- Identities of the element and of its descendants, in document order. -/
def Dom.ids : Dom → List Nat
  | .node i _ _ _ kids => i :: Dom.idsL kids
/-- Identities of a list of siblings and of their descendants. -/
def Dom.idsL : List Dom → List Nat
  | [] => []
  | d :: ds => Dom.ids d ++ Dom.idsL ds
end

mutual
/-- Call `$(new).insertBefore(target)` for a descendant `target` of the element:
`new` becomes the sibling right before the element with that identity. -/
def Dom.insertBefore (new : Dom) (target : Nat) : Dom → Dom
  | .node i t cl tx kids => .node i t cl tx (Dom.insertBeforeL new target kids)
/-- Insertion of `new` before `target` in a list of siblings, at any depth. -/
def Dom.insertBeforeL (new : Dom) (target : Nat) : List Dom → List Dom
  | [] => []
  | d :: ds =>
    if Dom.id d = target then
      new :: Dom.insertBefore new target d :: Dom.insertBeforeL new target ds
    else
      Dom.insertBefore new target d :: Dom.insertBeforeL new target ds
end

mutual
/-- Call `$(new).appendTo(target)`: `new` becomes the last child of the element
with identity `target`, looked for in the element and its descendants. -/
def Dom.appendTo (new : Dom) (target : Nat) : Dom → Dom
  | .node i t cl tx kids =>
    .node i t cl tx (Dom.appendToL new target kids ++ (if i = target then [new] else []))
/-- The same in a list of siblings. -/
def Dom.appendToL (new : Dom) (target : Nat) : List Dom → List Dom
  | [] => []
  | d :: ds => Dom.appendTo new target d :: Dom.appendToL new target ds
end

/-- Whether the first of a list of siblings has identity `target`. -/
def Dom.firstIs (target : Nat) : List Dom → Bool
  | [] => false
  | e :: _ => Dom.id e == target

mutual
/-- Call `$(target).prev()` for a descendant `target` of the element: the
sibling right before the element with that identity. -/
def Dom.prev (target : Nat) : Dom → List Dom
  | .node _ _ _ _ kids => Dom.prevL target kids
/-- The same in a list of siblings. -/
def Dom.prevL (target : Nat) : List Dom → List Dom
  | [] => []
  | d :: ds =>
    (if Dom.firstIs target ds then [d] else []) ++ (Dom.prev target d ++ Dom.prevL target ds)
end

/-- Call `$(html).insertBefore(targets)` on the subtree `node`: one new empty
element with the given tag and classes before each target (jQuery inserts the
element before the last target and a copy of it before each other one). The
result is the subtree, the identities of the inserted elements and the next
free identity. -/
def insertBeforeAll (tag : String) (cls : List String) :
    List Nat → Nat → Dom → Dom × List Nat × Nat
  | [], next, node => (node, [], next)
  | t :: ts, next, node =>
    let r := insertBeforeAll tag cls ts (next + 1)
      (Dom.insertBefore (.node next tag cls "" []) t node)
    (r.1, next :: r.2.1, r.2.2)

/-- Call `$(html).appendTo(targets)` on the subtree `node`, like `insertBeforeAll`. -/
def appendToAll (tag : String) (cls : List String) :
    List Nat → Nat → Dom → Dom × List Nat × Nat
  | [], next, node => (node, [], next)
  | t :: ts, next, node =>
    let r := appendToAll tag cls ts (next + 1)
      (Dom.appendTo (.node next tag cls "" []) t node)
    (r.1, next :: r.2.1, r.2.2)

/-- Handler `onDeleteItem` up to the call of `require` (lines 106-116).
`propertiesSelector` is the class that `this.attr.propertiesSelector` selects;
`this.select(s)` is `this.$node.find(s)`. The callback is kept in `loads` with
the captured `$container`. -/
def onDeleteItem (propertiesSelector : String) (s : Panel) : Panel :=
  let container := (Dom.find "delete-form" s.node).map Dom.id
  if container.length = 0 then
    let r := insertBeforeAll "div" ["delete-form"]
      ((Dom.find propertiesSelector s.node).map Dom.id) s.nextId s.node
    { s with node := r.1, nextId := r.2.2, loads := s.loads ++ [r.2.1] }
  else
    { s with loads := s.loads ++ [container] }

/-- The callback of `require` (lines 116-121) for the pending load number `k`:
a new `div.underneath` is appended to the captured `$container` and handed to
`DeleteForm.attachTo`. -/
def deleteFormLoaded (k : Nat) (s : Panel) : Panel :=
  match s.loads[k]? with
  | none => s
  | some container =>
    let r := appendToAll "div" ["underneath"] container s.nextId s.node
    { node := r.1, nextId := r.2.2, loads := s.loads.eraseIdx k,
      attached := s.attached ++ r.2.1 }

/-- What happens to the delete form: a `deleteItem` event, or the completion
of the pending load number `k`. -/
inductive PanelStep where
  | deleteItem
  | loaded (k : Nat)
deriving DecidableEq, Repr

/-- One step on the panel. -/
def panelStep (propertiesSelector : String) (s : Panel) : PanelStep → Panel
  | .deleteItem => onDeleteItem propertiesSelector s
  | .loaded k => deleteFormLoaded k s

/-- Run a trace on the panel. -/
def runPanel (propertiesSelector : String) (s : Panel) (t : List PanelStep) : Panel :=
  t.foldl (panelStep propertiesSelector) s

/-- Number of `deleteItem` events of a trace. -/
def deleteItems (t : List PanelStep) : Nat :=
  t.count PanelStep.deleteItem

/-- The delete form after `k ≥ 1` `deleteItem` events: the subtree has one
container, of identity `n0`, right before the only properties region, of
identity `pid`; every pending load has captured this container, and the
children of the container and the pending loads add up to `k`. -/
def DeleteFormInv (sel : String) (n0 pid k : Nat) (s : Panel) : Prop :=
  ∃ c, Dom.find "delete-form" s.node = [c] ∧ c.id = n0
    ∧ (Dom.find sel s.node).map Dom.id = [pid]
    ∧ Dom.prev pid s.node = [c]
    ∧ c.children.length + s.loads.length = k
    ∧ (∀ l ∈ s.loads, l = [n0])
    ∧ pid < s.nextId

/-! ## Theorems: tracker -/

theorem issue_fields (self : Nat) (rs : List ((Args → Promise) × Args)) (c : Tracker) :
    (issue self c rs)._promisesToCancel = c._promisesToCancel ++ (handles rs).filter (·.cancel)
    ∧ (issue self c rs).cancelCalls = c.cancelCalls := by
  induction rs generalizing c with
  | nil => simp [issue, run, handles]
  | cons r rs ih =>
    have h := ih (dataRequest self r.1 r.2 c).2
    simp only [issue, run, List.map_cons, List.foldl_cons, step, handles] at h ⊢
    rw [h.1, h.2]
    by_cases hc : (r.1 r.2).cancel <;> simp [dataRequest, hc, List.filter_cons]

theorem cancel_fields (self : Nat) (c : Tracker) :
    (cancel self c).cancelCalls = c.cancelCalls ++ c._promisesToCancel.map (fun p => (self, p))
    ∧ (cancel self c)._promisesToCancel = [] := by
  simp [cancel]

theorem cancelsOn_cancel (self : Nat) (c : Tracker) (p : Promise) :
    cancelsOn p (cancel self c) = cancelsOn p c + c._promisesToCancel.count p := by
  simp [cancelsOn, cancel, List.count_append, List.map_map, Function.comp_def]

theorem count_filter_cancel (l : List Promise) (p : Promise) :
    (l.filter (·.cancel)).count p = if p.cancel then l.count p else 0 := by
  by_cases hp : p.cancel
  · simp only [hp, if_true]
    rw [List.count_filter]
    simpa using hp
  · simp only [hp]
    simp only [Bool.false_eq_true, if_false]
    rw [List.count_eq_zero]
    intro hmem
    exact hp (by simpa using (List.mem_filter.mp hmem).2)

/-- C1 as stated fails: the tracked list is one array for all the instances of
the component. Instance 0 issues a request whose handle exposes `cancel`,
instance 1 calls `cancel()` (its teardown), which cancels that handle and
empties the list; the `cancel()` of instance 0 then invokes no `cancel` at all. -/
theorem cancel_of_other_instance_takes_handles :
    (run Tracker.init
        [Action.request 0 (fun _ => ⟨7, true⟩) ["vertex", "store"], Action.cancel 1]).cancelCalls
      = [(1, ⟨7, true⟩)]
    ∧ (cancel 0 (run Tracker.init
        [Action.request 0 (fun _ => ⟨7, true⟩) ["vertex", "store"], Action.cancel 1])).cancelCalls
      = (run Tracker.init
        [Action.request 0 (fun _ => ⟨7, true⟩) ["vertex", "store"], Action.cancel 1]).cancelCalls := by
  decide

/-- C1, amended: from any state in which the tracked list is empty, after a
sequence of requests issued through the wrapped `dataRequest` by one instance
(no other instance issuing a request or calling `cancel()` in between), the
`cancel()` of that instance invokes `cancel` once per request on each handle
that exposed one, in request order, and on no other handle, so exactly once on
each such handle when the handles are distinct objects; it leaves
`_promisesToCancel` empty, and a `cancel()` right after it invokes nothing and
leaves the list empty. -/
theorem cancel_invokes_tracked_handles_once (self : Nat) (c : Tracker)
    (hempty : c._promisesToCancel = []) (rs : List ((Args → Promise) × Args)) :
    (cancel self (issue self c rs)).cancelCalls
        = c.cancelCalls ++ ((handles rs).filter (·.cancel)).map (fun p => (self, p))
    ∧ (∀ p, cancelsOn p (cancel self (issue self c rs))
          = cancelsOn p c + if p.cancel then (handles rs).count p else 0)
    ∧ ((handles rs).Nodup → ∀ p ∈ handles rs,
          cancelsOn p (cancel self (issue self c rs))
            = cancelsOn p c + if p.cancel then 1 else 0)
    ∧ (cancel self (issue self c rs))._promisesToCancel = []
    ∧ (∀ other, (cancel other (cancel self (issue self c rs))).cancelCalls
          = (cancel self (issue self c rs)).cancelCalls)
    ∧ (∀ other, (cancel other (cancel self (issue self c rs)))._promisesToCancel = []) := by
  have hi := issue_fields self rs c
  have hlist : (issue self c rs)._promisesToCancel = (handles rs).filter (·.cancel) := by
    rw [hi.1, hempty]; rfl
  have hcount : ∀ p, cancelsOn p (cancel self (issue self c rs))
      = cancelsOn p c + if p.cancel then (handles rs).count p else 0 := by
    intro p
    rw [cancelsOn_cancel, hlist, count_filter_cancel]
    simp only [cancelsOn, hi.2]
  refine ⟨?_, hcount, ?_, (cancel_fields _ _).2, ?_, fun _ => (cancel_fields _ _).2⟩
  · rw [(cancel_fields _ _).1, hlist, hi.2]
  · intro hnd p hp
    rw [hcount p, List.count_eq_one_of_mem hnd hp]
  · intro other
    rw [(cancel_fields other _).1, (cancel_fields self _).2]
    simp

theorem cancel_invokes_tracked_handles_once_witness :
    (cancel 0 (issue 0 (run Tracker.init
        [Action.request 1 (fun _ => ⟨9, true⟩) ["x"], Action.cancel 1])
        [(fun _ => ⟨0, true⟩, ["a"]), (fun _ => ⟨1, false⟩, ["b"]),
          (fun _ => ⟨2, true⟩, ["c"])])).cancelCalls
      = [(1, ⟨9, true⟩), (0, ⟨0, true⟩), (0, ⟨2, true⟩)]
    ∧ ∀ p ∈ handles [(fun _ => ⟨0, true⟩, ["a"]), (fun _ => ⟨1, false⟩, ["b"]),
        (fun _ => ⟨2, true⟩, ["c"])],
        cancelsOn p (cancel 0 (issue 0 (run Tracker.init
            [Action.request 1 (fun _ => ⟨9, true⟩) ["x"], Action.cancel 1])
            [(fun _ => ⟨0, true⟩, ["a"]), (fun _ => ⟨1, false⟩, ["b"]),
              (fun _ => ⟨2, true⟩, ["c"])]))
          = cancelsOn p (run Tracker.init
              [Action.request 1 (fun _ => ⟨9, true⟩) ["x"], Action.cancel 1])
            + if p.cancel then 1 else 0 :=
  ⟨by decide,
    (cancel_invokes_tracked_handles_once 0
      (run Tracker.init [Action.request 1 (fun _ => ⟨9, true⟩) ["x"], Action.cancel 1])
      (by decide)
      [(fun _ => ⟨0, true⟩, ["a"]), (fun _ => ⟨1, false⟩, ["b"]),
        (fun _ => ⟨2, true⟩, ["c"])]).2.2.1 (by decide)⟩

theorem notifications_foldl_onFulfilled (l : List (Nat × Promise)) (c : Tracker) :
    notifications (l.foldl (fun acc e => onFulfilled e.1 acc) c) = notifications c + l.length
    ∧ (l.foldl (fun acc e => onFulfilled e.1 acc) c).thens = c.thens := by
  induction l generalizing c with
  | nil => simp
  | cons p l ih =>
    simp only [List.foldl_cons, List.length_cons]
    rw [(ih (onFulfilled p.1 c)).1, (ih (onFulfilled p.1 c)).2]
    constructor
    · simp [notifications, onFulfilled, Tracker.trigger, List.count_append]; omega
    · simp [onFulfilled, Tracker.trigger]

theorem filter_split_length (l : List (Nat × Promise)) (pid : Nat)
    (q : Nat × Promise → Bool) :
    (l.filter (fun e => (e.2.id == pid) || q e)).length
      = (l.filter (fun e => e.2.id == pid)).length
        + ((l.filter (fun e => !(e.2.id == pid))).filter q).length := by
  induction l with
  | nil => simp
  | cons a l ih =>
    by_cases h1 : a.2.id = pid <;> by_cases h2 : q a = true <;>
      simp [List.filter_cons, h1, h2, ih] <;> omega

theorem notifications_run (t : List Action) (c : Tracker) :
    notifications (run c t)
      = notifications c
        + (c.thens.filter (fun e => t.any (Action.completes e.2.id))).length
        + completedRequests t := by
  induction t generalizing c with
  | nil => simp [run, completedRequests]
  | cons a t ih =>
    have h : notifications (run c (a :: t)) = notifications (step c a)
        + ((step c a).thens.filter (fun e => t.any (Action.completes e.2.id))).length
        + completedRequests t := ih (step c a)
    rw [h]
    cases a with
    | request self func args =>
      have h1 : notifications (step c (Action.request self func args)) = notifications c := by
        by_cases hc : (func args).cancel <;> simp [step, dataRequest, notifications, hc]
      have h2 : (step c (Action.request self func args)).thens
          = c.thens ++ [(self, func args)] := by
        by_cases hc : (func args).cancel <;> simp [step, dataRequest, hc]
      rw [h1, h2, List.filter_append, List.length_append]
      simp only [completedRequests, List.any_cons, Action.completes, Bool.false_or]
      by_cases hany : t.any (Action.completes (func args).id) = true
      · simp [List.filter_cons, hany]; omega
      · simp only [List.filter_cons, hany, List.filter_nil, List.length_nil]
        simp
    | complete pid =>
      have h1 : notifications (step c (Action.complete pid))
          = notifications c + (c.thens.filter (fun e => e.2.id == pid)).length :=
        (notifications_foldl_onFulfilled _ _).1
      have h2 : (step c (Action.complete pid)).thens
          = c.thens.filter (fun e => !(e.2.id == pid)) :=
        (notifications_foldl_onFulfilled _ _).2
      have hs := filter_split_length c.thens pid (fun e => t.any (Action.completes e.2.id))
      have he : (c.thens.filter
            (fun e => (Action.complete pid :: t).any (Action.completes e.2.id)))
          = c.thens.filter (fun e => (e.2.id == pid) || t.any (Action.completes e.2.id)) := by
        congr 1; funext e
        simp only [List.any_cons, Action.completes]
        rw [Bool.beq_comm]
      rw [h1, h2, he, hs]
      simp only [completedRequests]
      omega
    | cancel self =>
      have h1 : notifications (step c (Action.cancel self)) = notifications c := rfl
      have h2 : (step c (Action.cancel self)).thens = c.thens := rfl
      rw [h1, h2]
      simp only [completedRequests, List.any_cons, Action.completes, Bool.false_or]

theorem completedRequests_all (rs : List (Nat × (Args → Promise) × Args)) (tail : List Action)
    (h : ∀ r ∈ rs, tail.any (Action.completes (r.2.1 r.2.2).id) = true) :
    completedRequests (requests rs ++ tail) = rs.length + completedRequests tail := by
  induction rs with
  | nil => simp [requests]
  | cons r rs ih =>
    have hr : tail.any (Action.completes (r.2.1 r.2.2).id) = true :=
      h _ (List.mem_cons_self _ _)
    have ih2 := ih (fun p hp => h p (List.mem_cons.mpr (Or.inr hp)))
    have hany : (requests rs ++ tail).any (Action.completes (r.2.1 r.2.2).id) = true := by
      rw [List.any_append, hr, Bool.or_true]
    show completedRequests (Action.request r.1 r.2.1 r.2.2 :: (requests rs ++ tail)) = _
    simp only [completedRequests, hany, if_true, ih2, List.length_cons]
    omega

theorem completedRequests_completions (order : List Nat) :
    completedRequests (order.map Action.complete) = 0 := by
  induction order with
  | nil => rfl
  | cons a l ih => simpa [completedRequests] using ih

/-- C8: the wrapper returns the handle of the underlying request unchanged,
and on every trace of requests, completions and cancellations, by any
instances, the number of `finishedLoadingTypeContent` notifications equals the
number of requests whose handle completes after the request, whatever else is
outstanding or cancelled; in particular N requests that all complete,
cancelled in between or not, give N notifications. -/
theorem dataRequest_returns_handle_and_notifies_once_per_completion :
    (∀ (self : Nat) (func : Args → Promise) (args : Args) (c : Tracker),
        (dataRequest self func args c).1 = func args)
    ∧ (∀ t : List Action, notifications (run Tracker.init t) = completedRequests t)
    ∧ (∀ (rs : List (Nat × (Args → Promise) × Args)) (cancelled : Bool) (who : Nat)
        (order : List Nat),
        (∀ r ∈ rs, (r.2.1 r.2.2).id ∈ order) →
        notifications (run Tracker.init
          (requests rs
            ++ ((if cancelled then [Action.cancel who] else []) ++ order.map Action.complete)))
          = rs.length) := by
  refine ⟨fun _ _ _ _ => rfl, ?_, ?_⟩
  · intro t
    rw [notifications_run]
    simp [Tracker.init, notifications]
  · intro rs cancelled who order h
    rw [notifications_run, completedRequests_all]
    · have h0 : completedRequests
          ((if cancelled then [Action.cancel who] else []) ++ order.map Action.complete) = 0 := by
        cases cancelled
        · simpa using completedRequests_completions order
        · simpa [completedRequests] using completedRequests_completions order
      rw [h0]
      simp [Tracker.init, notifications]
    · intro r hr
      have hm := h r hr
      rw [List.any_append, Bool.or_eq_true]
      right
      rw [List.any_eq_true]
      exact ⟨Action.complete (r.2.1 r.2.2).id,
        List.mem_map.mpr ⟨(r.2.1 r.2.2).id, hm, rfl⟩, by simp [Action.completes]⟩

theorem dataRequest_returns_handle_and_notifies_once_per_completion_witness :
    notifications (run Tracker.init
      (requests [(0, (fun _ => ⟨0, true⟩ : Args → Promise), ["a"]), (0, fun _ => ⟨1, false⟩, ["b"])]
        ++ ((if true then [Action.cancel 0] else []) ++ [1, 0].map Action.complete))) = 2 :=
  dataRequest_returns_handle_and_notifies_once_per_completion.2.2
    [(0, (fun _ => ⟨0, true⟩ : Args → Promise), ["a"]), (0, fun _ => ⟨1, false⟩, ["b"])] true 0
    [1, 0] (by decide)

/-! ## Theorems: menus -/

theorem historyLoop_eq (stack : List SelectedObjects) (k : Nat) (hk : k ≤ stack.length)
    (menus : List MenuItem) :
    historyLoop stack k menus = menus ++ ((stack.take k).reverse.map historyItem) := by
  induction k generalizing menus with
  | zero => simp [historyLoop]
  | succ k ih =>
    have hlt : k < stack.length := hk
    have hget : stack[k]? = some stack[k] := List.getElem?_eq_getElem hlt
    rw [historyLoop, hget]
    simp only
    rw [ih (Nat.le_of_lt hlt), List.take_succ, hget]
    simp only [Option.toList, List.reverse_append, List.reverse_cons, List.reverse_nil,
      List.nil_append, List.map_append, List.map_cons, List.map_nil, List.append_assoc,
      List.singleton_append, List.cons_append]

theorem selectionHistory_some (DIVIDER : MenuItem) (vd : VisalloData)
    (stack : List SelectedObjects) (h : vd.selectedObjectsStack = some stack) :
    (selectionHistory DIVIDER vd).1
      = some (if stack = [] then []
              else DIVIDER :: previouslyViewed :: stack.reverse.map historyItem) := by
  simp only [selectionHistory, h]
  rw [historyLoop_eq stack stack.length (Nat.le_refl _) []]
  cases stack with
  | nil => simp
  | cons a l => simp

/-- C6: `selectionHistory()` returns nothing when `visalloData` has no
selection stack; for a stack of length n it returns the empty list when n = 0
and, when n > 0, a list of length n + 2 that starts with the divider and the
disabled 'Previously Viewed' header and whose item 2 + i is built from
`stack[n - 1 - i]` (title, vertexIds, edgeIds, event `selectObjects`,
`ignoreMultipleSelectionOverride` set); `visalloData` is left as it was. -/
theorem selectionHistory_reverse_order (DIVIDER : MenuItem) (vd : VisalloData) :
    (vd.selectedObjectsStack = none → (selectionHistory DIVIDER vd).1 = none)
    ∧ (∀ stack, vd.selectedObjectsStack = some stack →
        ∃ menus, (selectionHistory DIVIDER vd).1 = some menus
          ∧ (stack.length = 0 → menus = [])
          ∧ (0 < stack.length →
              menus.length = stack.length + 2
              ∧ menus[0]? = some DIVIDER
              ∧ (∃ hd, menus[1]? = some hd ∧ hd.title = some "Previously Viewed"
                    ∧ hd.cls = some "disabled")
              ∧ ∀ i, i < stack.length →
                  ∃ s m, stack[stack.length - 1 - i]? = some s ∧ menus[2 + i]? = some m
                    ∧ m.title = some s.title
                    ∧ m.cls = some "history-item"
                    ∧ m.event = some "selectObjects"
                    ∧ m.eventData.bind (·.vertexIds) = some s.vertexIds
                    ∧ m.eventData.bind (·.edgeIds) = some s.edgeIds
                    ∧ (m.eventData.bind (·.options)).map (·.ignoreMultipleSelectionOverride)
                        = some true))
    ∧ (selectionHistory DIVIDER vd).2 = vd := by
  refine ⟨?_, ?_, ?_⟩
  · intro h
    simp [selectionHistory, h]
  · intro stack h
    refine ⟨_, selectionHistory_some DIVIDER vd stack h, ?_, ?_⟩
    · intro h0
      simp [List.length_eq_zero.mp h0]
    · intro hpos
      have hne : stack ≠ [] := by
        intro he; rw [he] at hpos; exact Nat.lt_irrefl _ hpos
      simp only [hne, if_false]
      refine ⟨by simp, by simp, ⟨previouslyViewed, by simp, rfl, rfl⟩, ?_⟩
      intro i hi
      have hidx : stack.length - 1 - i < stack.length := by omega
      refine ⟨stack[stack.length - 1 - i], historyItem stack[stack.length - 1 - i],
        List.getElem?_eq_getElem hidx, ?_, rfl, rfl, rfl, rfl, rfl, rfl⟩
      have h2 : (DIVIDER :: previouslyViewed :: stack.reverse.map historyItem)[2 + i]?
          = (stack.reverse.map historyItem)[i]? := by
        rw [Nat.add_comm]; simp
      rw [h2, List.getElem?_map, List.getElem?_reverse hi, List.getElem?_eq_getElem hidx]
      rfl
  · cases h : vd.selectedObjectsStack <;> simp [selectionHistory, h]

theorem selectionHistory_reverse_order_witness :
    ∃ menus, (selectionHistory previouslyViewed
        ⟨some [⟨"a", ["v1"], []⟩, ⟨"b", [], ["e1"]⟩], "ws"⟩).1 = some menus
      ∧ menus.length = 2 + 2 := by
  obtain ⟨menus, h1, -, h3⟩ :=
    (selectionHistory_reverse_order previouslyViewed
      ⟨some [⟨"a", ["v1"], []⟩, ⟨"b", [], ["e1"]⟩], "ws"⟩).2.1 _ rfl
  exact ⟨menus, h1, (h3 (by decide)).1⟩

/-- C7: `sourceUrlToolbarItem()` returns a menu item exactly when the entity's
properties contain one named 'http://visallo.org#sourceUrl'; the item then has
event 'openSourceUrl' and carries the value of the first such property; it
returns nothing otherwise, also when the entity has no properties. -/
theorem sourceUrlToolbarItem_iff_has_sourceUrl (i18n : String → String) (data : Vertex) :
    ((sourceUrlToolbarItem i18n data).isSome ↔
        ∃ ps, data.properties = some ps ∧ ∃ p ∈ ps, p.name = "http://visallo.org#sourceUrl")
    ∧ (∀ item, sourceUrlToolbarItem i18n data = some item →
        item.event = some "openSourceUrl"
        ∧ ∃ ps before p after, data.properties = some ps ∧ ps = before ++ p :: after
            ∧ (∀ q ∈ before, q.name ≠ "http://visallo.org#sourceUrl")
            ∧ p.name = "http://visallo.org#sourceUrl"
            ∧ item.eventData.bind (·.sourceUrl) = some p.value)
    ∧ (data.properties = none → sourceUrlToolbarItem i18n data = none) := by
  cases hp : data.properties with
  | none => simp [sourceUrlToolbarItem, findWhereName, hp]
  | some ps =>
    cases hf : ps.find? (fun p => p.name == "http://visallo.org#sourceUrl") with
    | none =>
      have hnone : sourceUrlToolbarItem i18n data = none := by
        simp [sourceUrlToolbarItem, findWhereName, hp, hf]
      rw [hnone]
      refine ⟨?_, ?_, ?_⟩
      · simp only [Option.isSome_none, Bool.false_eq_true, false_iff]
        rintro ⟨ps2, h2, p, hmem, hname⟩
        have hps : ps2 = ps := (Option.some.inj h2).symm
        subst hps
        have := List.find?_eq_none.mp hf p hmem
        simp [hname] at this
      · intro item h; cases h
      · intro h; cases h
    | some p =>
      have hsome : sourceUrlToolbarItem i18n data = some
          { title := some (i18n "detail.toolbar.open.source_url")
            subtitle := some (i18n "detail.toolbar.open.source_url.subtitle")
            cls := none
            event := some "openSourceUrl"
            eventData := some
              { vertexIds := none, edgeIds := none, options := none,
                sourceUrl := some p.value } } := by
        simp [sourceUrlToolbarItem, findWhereName, hp, hf]
      obtain ⟨hname, before, after, hsplit, hbefore⟩ := List.find?_eq_some.mp hf
      have hname2 : p.name = "http://visallo.org#sourceUrl" := by simpa using hname
      rw [hsome]
      refine ⟨?_, ?_, ?_⟩
      · simp only [Option.isSome_some, true_iff]
        exact ⟨ps, rfl, p, by rw [hsplit]; simp, hname2⟩
      · intro item h
        have hi := (Option.some.inj h).symm
        subst hi
        refine ⟨rfl, ps, before, p, after, rfl, hsplit, ?_, hname2, rfl⟩
        intro q hq
        have := hbefore q hq
        simpa using this
      · intro h; cases h

theorem sourceUrlToolbarItem_iff_has_sourceUrl_witness :
    (sourceUrlToolbarItem id
        ⟨"v1", some [⟨"title", "t"⟩, ⟨"http://visallo.org#sourceUrl", "http://a"⟩,
          ⟨"http://visallo.org#sourceUrl", "http://b"⟩]⟩).isSome
    ∧ sourceUrlToolbarItem id ⟨"v1", none⟩ = none :=
  ⟨(sourceUrlToolbarItem_iff_has_sourceUrl id
      ⟨"v1", some [⟨"title", "t"⟩, ⟨"http://visallo.org#sourceUrl", "http://a"⟩,
        ⟨"http://visallo.org#sourceUrl", "http://b"⟩]⟩).1.mpr
      ⟨_, rfl, ⟨"http://visallo.org#sourceUrl", "http://a"⟩, by decide, rfl⟩,
   (sourceUrlToolbarItem_iff_has_sourceUrl id ⟨"v1", none⟩).2.2 rfl⟩

/-! ## Theorems: watcher -/

theorem truthyId_iff (o : Option String) : truthyId o = true ↔ ∃ b, o = some b ∧ b ≠ "" := by
  cases o with
  | none => simp [truthyId]
  | some s => simp [truthyId]

theorem previousConceptId_eq_some (concept : Vertex → Option Concept) (data : Vertex)
    (b : String) :
    previousConceptId concept data = some b ↔
      data.properties.isSome = true ∧ ∃ c, concept data = some c ∧ c.id = b := by
  unfold previousConceptId
  cases hp : data.properties with
  | none => simp
  | some ps => simp

/-- C5: a `verticesUpdated` broadcast makes the watcher call the (debounced)
concept-type-change handler with the entry `v` exactly when a baseline concept
id was captured at initialization (the entity had properties and a concept
with a non-empty id), the batch has vertices, `v` is the first entry whose id
is the displayed entity's, a concept is derived for `v` and its id differs from
the baseline. The handler emits `selectObjects` on the document with
`vertices = [v]` and `forceSelectEvenIfSame` set, once after the call; a
broadcast that does not qualify changes nothing and triggers nothing, in
particular one with an unchanged concept or with other ids only. -/
theorem verticesUpdated_invokes_handler_iff (concept : Vertex → Option Concept)
    (data : Vertex) (batch : Option VerticesUpdated) (v : Vertex) :
    (onVerticesUpdated concept (Watcher.afterInitialize concept data).attrData
        (Watcher.afterInitialize concept data).previousConceptId batch = some v ↔
      ((data.properties.isSome = true ∧
          ∃ c0, concept data = some c0 ∧ c0.id ≠ "" ∧
            ∃ c, concept v = some c ∧ c.id ≠ c0.id)
        ∧ ∃ vertices before after, batch = some ⟨some vertices⟩
            ∧ vertices = before ++ v :: after
            ∧ (∀ u ∈ before, u.id ≠ data.id) ∧ v.id = data.id))
    ∧ (debouncedConceptTypeChange v).type = "selectObjects"
    ∧ (debouncedConceptTypeChange v).vertices = [v]
    ∧ (debouncedConceptTypeChange v).options.forceSelectEvenIfSame = true
    ∧ (onVerticesUpdated concept (Watcher.afterInitialize concept data).attrData
          (Watcher.afterInitialize concept data).previousConceptId batch = some v →
        (Watcher.verticesUpdated concept (Watcher.afterInitialize concept data) batch).documentEvents
            = []
        ∧ (Watcher.quiet
            (Watcher.verticesUpdated concept (Watcher.afterInitialize concept data) batch)).documentEvents
            = [debouncedConceptTypeChange v])
    ∧ (onVerticesUpdated concept (Watcher.afterInitialize concept data).attrData
          (Watcher.afterInitialize concept data).previousConceptId batch = none →
        Watcher.verticesUpdated concept (Watcher.afterInitialize concept data) batch
            = Watcher.afterInitialize concept data
        ∧ (Watcher.quiet
            (Watcher.verticesUpdated concept (Watcher.afterInitialize concept data) batch)).documentEvents
            = [])
    ∧ ((∀ vertices, batch = some ⟨some vertices⟩ → ∀ u ∈ vertices, u.id ≠ data.id) →
        onVerticesUpdated concept (Watcher.afterInitialize concept data).attrData
          (Watcher.afterInitialize concept data).previousConceptId batch = none)
    ∧ ((∀ c0 c, concept data = some c0 → ∀ u, concept u = some c → c.id = c0.id) →
        onVerticesUpdated concept (Watcher.afterInitialize concept data).attrData
          (Watcher.afterInitialize concept data).previousConceptId batch = none) := by
  have key : ∀ w : Vertex,
      onVerticesUpdated concept (Watcher.afterInitialize concept data).attrData
        (Watcher.afterInitialize concept data).previousConceptId batch = some w ↔
      ((data.properties.isSome = true ∧
          ∃ c0, concept data = some c0 ∧ c0.id ≠ "" ∧
            ∃ c, concept w = some c ∧ c.id ≠ c0.id)
        ∧ ∃ vertices before after, batch = some ⟨some vertices⟩
            ∧ vertices = before ++ w :: after
            ∧ (∀ u ∈ before, u.id ≠ data.id) ∧ w.id = data.id) := by
    intro w
    show onVerticesUpdated concept data (previousConceptId concept data) batch = some w ↔ _
    constructor
    · intro h
      unfold onVerticesUpdated at h
      cases batch with
      | none => simp at h
      | some d =>
        obtain ⟨vs⟩ := d
        cases vs with
        | none => simp at h
        | some vertices =>
          simp only at h
          cases hf : findWhereId vertices data.id with
          | none => simp [hf] at h
          | some current =>
            simp only [hf] at h
            cases hc : concept current with
            | none => simp [hc] at h
            | some c =>
              simp only [hc] at h
              split at h
              · rename_i hcond
                have hw : current = w := Option.some.inj h
                subst hw
                rw [Bool.and_eq_true] at hcond
                obtain ⟨b, hb, hbne⟩ := (truthyId_iff _).mp hcond.1
                obtain ⟨hprops, c0, hc0, hid⟩ := (previousConceptId_eq_some concept data b).mp hb
                have hdiff : c.id ≠ c0.id := by
                  have h2 := hcond.2
                  rw [hb] at h2
                  intro he
                  rw [he, hid] at h2
                  simp at h2
                obtain ⟨hname, before, after, hsplit, hbefore⟩ := List.find?_eq_some.mp hf
                refine ⟨⟨hprops, c0, hc0, by rw [hid]; exact hbne, c, hc, hdiff⟩,
                  vertices, before, after, rfl, hsplit, ?_, by simpa using hname⟩
                intro u hu
                simpa using hbefore u hu
              · simp at h
    · rintro ⟨⟨hprops, c0, hc0, hne, c, hc, hdiff⟩, vertices, before, after, hb, hsplit, hbefore,
        hid⟩
      have hprev : previousConceptId concept data = some c0.id :=
        (previousConceptId_eq_some concept data c0.id).mpr ⟨hprops, c0, hc0, rfl⟩
      have hf : findWhereId vertices data.id = some w := by
        unfold findWhereId
        rw [List.find?_eq_some]
        refine ⟨by simpa using hid, before, after, hsplit, ?_⟩
        intro u hu
        simpa using hbefore u hu
      subst hb
      simp only [onVerticesUpdated, hf, hc, hprev, truthyId]
      simp [hne, hdiff]
  refine ⟨key v, rfl, rfl, rfl, ?_, ?_, ?_, ?_⟩
  · intro h
    have h2 : onVerticesUpdated concept data (previousConceptId concept data) batch = some v := h
    simp [Watcher.verticesUpdated, h2, Watcher.quiet, Watcher.afterInitialize]
  · intro h
    have h2 : onVerticesUpdated concept data (previousConceptId concept data) batch = none := h
    simp [Watcher.verticesUpdated, h2, Watcher.quiet, Watcher.afterInitialize]
  · intro hother
    cases hres : onVerticesUpdated concept (Watcher.afterInitialize concept data).attrData
        (Watcher.afterInitialize concept data).previousConceptId batch with
    | none => rfl
    | some w =>
      obtain ⟨-, vertices, before, after, hb, hsplit, -, hid⟩ := (key w).mp hres
      exact absurd hid (hother vertices hb w (by rw [hsplit]; simp))
  · intro hsame
    cases hres : onVerticesUpdated concept (Watcher.afterInitialize concept data).attrData
        (Watcher.afterInitialize concept data).previousConceptId batch with
    | none => rfl
    | some w =>
      obtain ⟨⟨-, c0, hc0, -, c, hc, hdiff⟩, -⟩ := (key w).mp hres
      exact absurd (hsame c0 c hc0 w hc) hdiff

theorem verticesUpdated_invokes_handler_iff_witness :
    onVerticesUpdated (fun (u : Vertex) => (u.properties.bind List.head?).map (fun (p : Property) => Concept.mk p.value))
        (Watcher.afterInitialize (fun (u : Vertex) => (u.properties.bind List.head?).map (fun (p : Property) => Concept.mk p.value))
          ⟨"v1", some [⟨"concept", "person"⟩]⟩).attrData
        (Watcher.afterInitialize (fun (u : Vertex) => (u.properties.bind List.head?).map (fun (p : Property) => Concept.mk p.value))
          ⟨"v1", some [⟨"concept", "person"⟩]⟩).previousConceptId
        (some ⟨some [⟨"v2", none⟩, ⟨"v1", some [⟨"concept", "org"⟩]⟩]⟩)
      = some ⟨"v1", some [⟨"concept", "org"⟩]⟩ :=
  (verticesUpdated_invokes_handler_iff
      (fun (u : Vertex) => (u.properties.bind List.head?).map (fun (p : Property) => Concept.mk p.value))
      ⟨"v1", some [⟨"concept", "person"⟩]⟩
      (some ⟨some [⟨"v2", none⟩, ⟨"v1", some [⟨"concept", "org"⟩]⟩]⟩)
      ⟨"v1", some [⟨"concept", "org"⟩]⟩).1.mpr
    ⟨⟨rfl, ⟨"person"⟩, rfl, by decide, ⟨"org"⟩, rfl, by decide⟩,
      _, [⟨"v2", none⟩], [], rfl, rfl, by decide, rfl⟩

/-! ## Theorems: open fullscreen -/

/-- C9: `onOpenFullscreen` opens the result of the URL builder, called with a
list and the current workspace id. The list comes from the payload's
`vertices` when the payload carries them, else from the displayed entity's
`vertices` when it has them, else from the displayed entity itself; an array is
passed through unchanged and anything else is wrapped as a one-element list. -/
theorem onOpenFullscreen_passes_list (url : List JsVal → String → String)
    (visalloData : VisalloData) (attrData data : JsVal) :
    onOpenFullscreen url visalloData attrData data
        = url (fullscreenList (fullscreenVertices attrData data)) visalloData.currentWorkspaceId
    ∧ ((data.truthy = true ∧ (data.get "vertices").truthy = true) →
        fullscreenVertices attrData data = data.get "vertices")
    ∧ (¬ (data.truthy = true ∧ (data.get "vertices").truthy = true) →
        (attrData.isObject = true ∧ (attrData.get "vertices").truthy = true) →
        fullscreenVertices attrData data = attrData.get "vertices")
    ∧ (¬ (data.truthy = true ∧ (data.get "vertices").truthy = true) →
        ¬ (attrData.isObject = true ∧ (attrData.get "vertices").truthy = true) →
        fullscreenVertices attrData data = attrData)
    ∧ (∀ items, fullscreenVertices attrData data = JsVal.arr items →
        fullscreenList (fullscreenVertices attrData data) = items)
    ∧ ((fullscreenVertices attrData data).isArray = false →
        fullscreenList (fullscreenVertices attrData data) = [fullscreenVertices attrData data]) := by
  refine ⟨rfl, ?_, ?_, ?_, ?_, ?_⟩
  · intro h
    simp [fullscreenVertices, h.1, h.2]
  · intro h1 h2
    have : (data.truthy && (data.get "vertices").truthy) = false := by
      simpa using h1
    simp [fullscreenVertices, this, h2.1, h2.2]
  · intro h1 h2
    have e1 : (data.truthy && (data.get "vertices").truthy) = false := by
      simpa using h1
    have e2 : (attrData.isObject && (attrData.get "vertices").truthy) = false := by
      simpa using h2
    simp [fullscreenVertices, e1, e2]
  · intro items h
    rw [h]
    rfl
  · intro h
    cases hv : fullscreenVertices attrData data <;> simp_all [fullscreenList, JsVal.isArray]

theorem onOpenFullscreen_passes_list_witness :
    fullscreenVertices (JsVal.obj [("id", JsVal.str "v1")])
        (JsVal.obj [("vertices", JsVal.arr [JsVal.str "a", JsVal.str "b"])])
      = JsVal.arr [JsVal.str "a", JsVal.str "b"] :=
  (onOpenFullscreen_passes_list (fun _ ws => ws) ⟨none, "ws"⟩ (JsVal.obj [("id", JsVal.str "v1")])
      (JsVal.obj [("vertices", JsVal.arr [JsVal.str "a", JsVal.str "b"])])).2.1
    ⟨rfl, rfl⟩

/-! ## Theorems: redirect -/

/-- C2: in a component whose subtree has a properties region, the redirect
handler does nothing (no `stopPropagation`, no re-dispatch) when the origin is
inside a comments region; otherwise, when the origin is inside a properties
region, it does not re-dispatch (nor stop) the event; otherwise it stops
propagation and hands exactly one callback to `_.defer`, which triggers the
same event type with the same payload on the properties region. -/
theorem redirect_with_properties_region (doc node : Dom) (event : Event) (data : JsVal)
    (hprops : Dom.find "properties" node ≠ []) :
    ((closest "comments" event.target doc).isSome = true →
        (redirectToPropertiesComponent doc node event data).stopPropagation = false
        ∧ (redirectToPropertiesComponent doc node event data).deferred = []
        ∧ (redirectToPropertiesComponent doc node event data).thrown = none)
    ∧ ((closest "comments" event.target doc).isSome = false →
        (closest "properties" event.target doc).isSome = true →
        (redirectToPropertiesComponent doc node event data).stopPropagation = false
        ∧ (redirectToPropertiesComponent doc node event data).deferred = []
        ∧ (redirectToPropertiesComponent doc node event data).thrown = none)
    ∧ ((closest "comments" event.target doc).isSome = false →
        (closest "properties" event.target doc).isSome = false →
        (redirectToPropertiesComponent doc node event data).stopPropagation = true
        ∧ (redirectToPropertiesComponent doc node event data).thrown = none
        ∧ ∃ d, (redirectToPropertiesComponent doc node event data).deferred = [d]
            ∧ d.type = event.type ∧ d.data = data
            ∧ d.targets = (Dom.find "properties" node).map Dom.id
            ∧ d.targets ≠ []) := by
  have hlen : (Dom.find "properties" node).length ≠ 0 := by
    intro h; exact hprops (List.length_eq_zero.mp h)
  refine ⟨?_, ?_, ?_⟩
  · intro hc
    simp [redirectToPropertiesComponent, hc]
  · intro hc hp
    have hp2 : (closest "properties" event.target doc).isNone = false := by
      cases h : closest "properties" event.target doc <;> simp_all
    simp [redirectToPropertiesComponent, hc, hp2]
  · intro hc hp
    have hp2 : (closest "properties" event.target doc).isNone = true := by
      cases h : closest "properties" event.target doc <;> simp_all
    simp only [redirectToPropertiesComponent, hc, hp2]
    simp only [Bool.false_eq_true, if_false, if_true]
    rw [if_pos hlen]
    refine ⟨rfl, rfl, _, rfl, rfl, rfl, rfl, ?_⟩
    intro h
    exact hprops (List.map_eq_nil_iff.mp h)

theorem redirect_with_properties_region_witness :
    (redirectToPropertiesComponent
        (.node 0 "div" [] "" [.node 1 "div" ["properties"] "" [], .node 2 "button" [] "" []])
        (.node 0 "div" [] "" [.node 1 "div" ["properties"] "" [], .node 2 "button" [] "" []])
        ⟨"addProperty", 2⟩ (JsVal.str "p")).stopPropagation = true :=
  ((redirect_with_properties_region
      (.node 0 "div" [] "" [.node 1 "div" ["properties"] "" [], .node 2 "button" [] "" []])
      (.node 0 "div" [] "" [.node 1 "div" ["properties"] "" [], .node 2 "button" [] "" []])
      ⟨"addProperty", 2⟩ (JsVal.str "p") (by simp [Dom.find, Dom.findL, Dom.hasClass, Dom.classes])).2.2
    (by decide) (by decide)).1

/-- C3 as stated fails: with no properties region in the subtree, an event
whose origin is inside a comments region is ignored and the handler returns
without throwing. -/
theorem redirect_without_properties_region_may_return :
    Dom.find "properties"
        (.node 0 "div" [] "" [.node 1 "div" ["comments"] "" [.node 2 "button" [] "" []]]) = []
    ∧ (redirectToPropertiesComponent
        (.node 0 "div" [] "" [.node 1 "div" ["comments"] "" [.node 2 "button" [] "" []]])
        (.node 0 "div" [] "" [.node 1 "div" ["comments"] "" [.node 2 "button" [] "" []]])
        ⟨"addProperty", 2⟩ JsVal.undefined).thrown = none
    ∧ (redirectToPropertiesComponent
        (.node 0 "div" [] "" [.node 1 "div" ["comments"] "" [.node 2 "button" [] "" []]])
        (.node 0 "div" [] "" [.node 1 "div" ["comments"] "" [.node 2 "button" [] "" []]])
        ⟨"addProperty", 2⟩ JsVal.undefined).deferred.length = 0 := by
  refine ⟨rfl, ?_, ?_⟩ <;> decide

/-- C3, amended: with no properties region in the subtree, the handler throws
(after stopping propagation, with no re-dispatch) for every event whose origin
is inside neither a comments region nor a properties region; for an origin
inside one of these it returns without effect. -/
theorem redirect_without_properties_region (doc node : Dom) (event : Event) (data : JsVal)
    (hnone : Dom.find "properties" node = []) :
    ((closest "comments" event.target doc).isSome = false →
        (closest "properties" event.target doc).isSome = false →
        (redirectToPropertiesComponent doc node event data).thrown
            = some "Unable to redirect properties request"
        ∧ (redirectToPropertiesComponent doc node event data).stopPropagation = true
        ∧ (redirectToPropertiesComponent doc node event data).deferred = [])
    ∧ (((closest "comments" event.target doc).isSome = true
          ∨ (closest "properties" event.target doc).isSome = true) →
        (redirectToPropertiesComponent doc node event data).thrown = none
        ∧ (redirectToPropertiesComponent doc node event data).stopPropagation = false
        ∧ (redirectToPropertiesComponent doc node event data).deferred = []) := by
  refine ⟨?_, ?_⟩
  · intro hc hp
    have hp2 : (closest "properties" event.target doc).isNone = true := by
      cases h : closest "properties" event.target doc <;> simp_all
    simp [redirectToPropertiesComponent, hc, hp2, hnone]
  · intro h
    by_cases hc : (closest "comments" event.target doc).isSome = true
    · simp [redirectToPropertiesComponent, hc]
    · have hp : (closest "properties" event.target doc).isSome = true := by
        rcases h with h | h
        · exact absurd h hc
        · exact h
      have hp2 : (closest "properties" event.target doc).isNone = false := by
        cases h : closest "properties" event.target doc <;> simp_all
      simp [redirectToPropertiesComponent, hc, hp2]

theorem redirect_without_properties_region_witness :
    (redirectToPropertiesComponent
        (.node 0 "div" [] "" [.node 2 "button" [] "" []])
        (.node 0 "div" [] "" [.node 2 "button" [] "" []])
        ⟨"addProperty", 2⟩ JsVal.undefined).thrown
      = some "Unable to redirect properties request" :=
  ((redirect_without_properties_region
      (.node 0 "div" [] "" [.node 2 "button" [] "" []])
      (.node 0 "div" [] "" [.node 2 "button" [] "" []])
      ⟨"addProperty", 2⟩ JsVal.undefined rfl).1 (by decide) (by decide)).1

/-! ## Theorems: overlay -/

theorem Dom.findL_append (c : String) (xs ys : List Dom) :
    Dom.findL c (xs ++ ys) = Dom.findL c xs ++ Dom.findL c ys := by
  induction xs with
  | nil => simp [Dom.findL]
  | cons d ds ih => simp [Dom.findL, ih, List.append_assoc]

mutual
theorem Dom.find_remove (c : String) : ∀ d : Dom, Dom.find c (Dom.remove c d) = []
  | .node _ _ _ _ kids => by
    simp only [Dom.remove, Dom.find]
    exact Dom.findL_removeL c kids
theorem Dom.findL_removeL (c : String) : ∀ ds : List Dom, Dom.findL c (Dom.removeL c ds) = []
  | [] => by simp [Dom.removeL, Dom.findL]
  | d :: ds => by
    by_cases h : d.hasClass c = true
    · simp only [Dom.removeL, h, if_true]
      exact Dom.findL_removeL c ds
    · have h2 : (Dom.remove c d).hasClass c = false := by
        cases d with
        | node i t cl tx kids => simpa [Dom.remove, Dom.hasClass, Dom.classes] using h
      simp only [Dom.removeL, h, if_false, Dom.findL, h2, Bool.false_eq_true, List.nil_append]
      rw [Dom.find_remove c d, Dom.findL_removeL c ds]
      rfl
end

mutual
theorem Dom.remove_of_find_nil (c : String) :
    ∀ d : Dom, Dom.find c d = [] → Dom.remove c d = d
  | .node i t cl tx kids => by
    intro h
    simp only [Dom.find] at h
    simp only [Dom.remove, Dom.removeL_of_findL_nil c kids h]
theorem Dom.removeL_of_findL_nil (c : String) :
    ∀ ds : List Dom, Dom.findL c ds = [] → Dom.removeL c ds = ds
  | [] => by intro _; simp [Dom.removeL]
  | d :: ds => by
    intro h
    simp only [Dom.findL, List.append_eq_nil] at h
    have h1 : d.hasClass c = false := by
      by_cases hc : d.hasClass c = true
      · simp [hc] at h
      · simpa using hc
    simp only [Dom.removeL, h1, Bool.false_eq_true, if_false]
    rw [Dom.remove_of_find_nil c d h.2.1, Dom.removeL_of_findL_nil c ds h.2.2]
end

theorem Dom.find_append (c : String) (new d : Dom) :
    Dom.find c (Dom.append new d) = Dom.find c d ++ Dom.findL c [new] := by
  cases d with
  | node i t cl tx kids => simp only [Dom.append, Dom.find, Dom.findL_append]

theorem overlay_hasClass (n : Nat) (data : MaskData) :
    (overlay n data).hasClass "detail-overlay" = true := by
  cases hl : data.loading with
  | bool b => cases b <;> simp [overlay, toggleClass, Dom.hasClass, Dom.classes, hl]
  | _ => simp [overlay, toggleClass, Dom.hasClass, Dom.classes, hl]

theorem overlay_loading (n : Nat) (data : MaskData) :
    (overlay n data).hasClass "detail-overlay-loading" = false ↔ data.loading = JsVal.bool false := by
  cases hl : data.loading with
  | bool b => cases b <;> simp [overlay, toggleClass, Dom.hasClass, Dom.classes, hl]
  | _ => simp [overlay, toggleClass, Dom.hasClass, Dom.classes, hl]

theorem findL_overlay (n : Nat) (data : MaskData) :
    Dom.findL "detail-overlay" [overlay n data] = [overlay n data] := by
  have h := overlay_hasClass n data
  have hf : Dom.find "detail-overlay" (overlay n data) = [] := by
    simp [overlay, Dom.find, Dom.findL, Dom.hasClass, Dom.classes]
  simp [Dom.findL, h, hf]

theorem maskAll_snoc (s : Panel) (ds : List MaskData) (d : MaskData) :
    maskAll s (ds ++ [d]) = (onMaskWithOverlay d (maskAll s ds)).1 := by
  simp [maskAll, List.foldl_append]

theorem sinceDone_snoc (ds : List MaskData) (d : MaskData) :
    sinceDone (ds ++ [d]) = if d.done.truthy then 0 else sinceDone ds + 1 := by
  cases hd : d.done.truthy <;> simp [sinceDone, List.takeWhile_cons, hd]

theorem overlays_maskAll (s : Panel) (h0 : Dom.find "detail-overlay" s.node = [])
    (ds : List MaskData) :
    (Dom.find "detail-overlay" (maskAll s ds).node).length = sinceDone ds := by
  induction ds using List.reverseRecOn with
  | nil => simp [maskAll, sinceDone, h0]
  | append_singleton ds d ih =>
    rw [maskAll_snoc, sinceDone_snoc]
    cases hd : d.done.truthy
    · simp only [onMaskWithOverlay, hd, Bool.false_eq_true, if_false]
      rw [Dom.find_append, findL_overlay, List.length_append, ih]
      rfl
    · simp only [onMaskWithOverlay, hd, if_true]
      rw [Dom.find_remove]
      rfl

/-- C4 as stated fails. Two payloads without `done` in a row leave two overlay
elements in the subtree: the handler appends and never replaces. And a payload
that has no `loading` key gives an overlay in the loading state: `toggleClass`
toggles the class for a state that is not a boolean. -/
theorem overlay_appended_not_replaced :
    Dom.find "detail-overlay" (Dom.node 0 "div" [] "" []) = []
    ∧ (Dom.find "detail-overlay"
        (maskAll ⟨Dom.node 0 "div" [] "" [], 1, [], []⟩
          [⟨JsVal.bool false, JsVal.bool true, some "Loading"⟩,
            ⟨JsVal.bool false, JsVal.bool true, some "Loading"⟩]).node).length = 2
    ∧ (Dom.find "detail-overlay"
        (maskAll ⟨Dom.node 0 "div" [] "" [], 1, [], []⟩
          [⟨JsVal.undefined, JsVal.undefined, some "x"⟩]).node).map
          (fun o => o.hasClass "detail-overlay-loading") = [true] :=
  ⟨rfl, rfl, rfl⟩

/-- C4, amended: starting from a subtree with no overlay, after a sequence of
`maskWithOverlay` events the number of overlay elements in the subtree is the
number of payloads since the last one with a truthy `done`: 0 when the last
payload had `done` set, at least 1 otherwise, and exactly 1 when the payload
before the last had `done` set or the last is the only one. When the last
payload has no `done`, the last overlay element of the subtree is in the
loading state unless the `loading` of that payload is the boolean `false` (so
its loading state is that of the payload when `loading` is a boolean, and it
is loading when `loading` is absent or not a boolean), and its heading has the
text of that payload, empty when the payload has none. A `done` payload when
no overlay exists leaves the subtree unchanged. -/
theorem overlay_count_since_done (s : Panel) (h0 : Dom.find "detail-overlay" s.node = [])
    (ds : List MaskData) :
    (Dom.find "detail-overlay" (maskAll s ds).node).length = sinceDone ds
    ∧ (∀ pre d, ds = pre ++ [d] → d.done.truthy = true →
        Dom.find "detail-overlay" (maskAll s ds).node = [])
    ∧ (∀ pre d, ds = pre ++ [d] → d.done.truthy = false →
        1 ≤ (Dom.find "detail-overlay" (maskAll s ds).node).length
        ∧ ((∀ e, pre.getLast? = some e → e.done.truthy = true) →
            (Dom.find "detail-overlay" (maskAll s ds).node).length = 1)
        ∧ ∃ o, (Dom.find "detail-overlay" (maskAll s ds).node).getLast? = some o
            ∧ (o.hasClass "detail-overlay-loading" = false ↔ d.loading = JsVal.bool false)
            ∧ (∀ b, d.loading = JsVal.bool b → o.hasClass "detail-overlay-loading" = b)
            ∧ o.children.map Dom.text = [d.text.getD ""])
    ∧ (∀ d, d.done.truthy = true → (onMaskWithOverlay d s).1.node = s.node) := by
  have hcount := overlays_maskAll s h0
  refine ⟨hcount ds, ?_, ?_, ?_⟩
  · intro pre d hds hd
    apply List.length_eq_zero.mp
    rw [hcount, hds, sinceDone_snoc, hd]
    rfl
  · intro pre d hds hd
    have hlen : (Dom.find "detail-overlay" (maskAll s ds).node).length = sinceDone pre + 1 := by
      rw [hcount, hds, sinceDone_snoc, hd]
      rfl
    refine ⟨by omega, ?_, ?_⟩
    · intro hprev
      rw [hlen]
      have : sinceDone pre = 0 := by
        rcases List.eq_nil_or_concat pre with hnil | ⟨pre2, e, hpre⟩
        · rw [hnil]; rfl
        · rw [hpre, List.concat_eq_append] at hprev ⊢
          rw [sinceDone_snoc, hprev e (by simp)]
          rfl
      omega
    · subst hds
      rw [maskAll_snoc]
      simp only [onMaskWithOverlay, hd, Bool.false_eq_true, if_false]
      rw [Dom.find_append, findL_overlay]
      refine ⟨overlay (maskAll s pre).nextId d, by simp, overlay_loading _ d, ?_, ?_⟩
      · intro b hb
        cases b
        · exact (overlay_loading _ d).mpr hb
        · cases hc : (overlay (maskAll s pre).nextId d).hasClass "detail-overlay-loading"
          · have := (overlay_loading _ d).mp hc
            rw [hb] at this
            cases this
          · rfl
      · simp [overlay, Dom.children, Dom.text]
  · intro d hd
    simp only [onMaskWithOverlay, hd, if_true]
    exact Dom.remove_of_find_nil _ _ h0

theorem overlay_count_since_done_witness :
    (Dom.find "detail-overlay"
        (maskAll ⟨Dom.node 0 "div" [] "" [], 1, [], []⟩
          [⟨JsVal.bool false, JsVal.bool true, some "Loading"⟩, ⟨JsVal.bool true, JsVal.undefined, none⟩,
            ⟨JsVal.undefined, JsVal.bool false, some "a"⟩,
            ⟨JsVal.undefined, JsVal.undefined, some "b"⟩]).node).length
      = sinceDone [⟨JsVal.bool false, JsVal.bool true, some "Loading"⟩,
            ⟨JsVal.bool true, JsVal.undefined, none⟩,
            ⟨JsVal.undefined, JsVal.bool false, some "a"⟩,
            ⟨JsVal.undefined, JsVal.undefined, some "b"⟩]
    ∧ sinceDone [⟨JsVal.bool false, JsVal.bool true, some "Loading"⟩,
            ⟨JsVal.bool true, JsVal.undefined, none⟩,
            ⟨JsVal.undefined, JsVal.bool false, some "a"⟩,
            ⟨JsVal.undefined, JsVal.undefined, some "b"⟩] = 2 :=
  ⟨(overlay_count_since_done ⟨Dom.node 0 "div" [] "" [], 1, [], []⟩ rfl
      [⟨JsVal.bool false, JsVal.bool true, some "Loading"⟩, ⟨JsVal.bool true, JsVal.undefined, none⟩,
        ⟨JsVal.undefined, JsVal.bool false, some "a"⟩,
        ⟨JsVal.undefined, JsVal.undefined, some "b"⟩]).1, by decide⟩

/-! ## Theorems: delete form -/

theorem Dom.id_insertBefore (new : Dom) (t : Nat) (d : Dom) :
    (Dom.insertBefore new t d).id = d.id := by
  cases d; rfl

theorem Dom.hasClass_insertBefore (new : Dom) (t : Nat) (d : Dom) (c : String) :
    (Dom.insertBefore new t d).hasClass c = d.hasClass c := by
  cases d; rfl

theorem Dom.id_appendTo (new : Dom) (t : Nat) (d : Dom) :
    (Dom.appendTo new t d).id = d.id := by
  cases d; rfl

theorem Dom.hasClass_appendTo (new : Dom) (t : Nat) (d : Dom) (c : String) :
    (Dom.appendTo new t d).hasClass c = d.hasClass c := by
  cases d; rfl

mutual
theorem Dom.find_ids (c : String) : ∀ (d x : Dom), x ∈ Dom.find c d → x.id ∈ Dom.idsL d.children
  | .node _ _ _ _ kids, x => by
    intro h
    simp only [Dom.find] at h
    exact Dom.findL_ids c kids x h
theorem Dom.findL_ids (c : String) : ∀ (ds : List Dom) (x : Dom),
    x ∈ Dom.findL c ds → x.id ∈ Dom.idsL ds
  | [], x => by intro h; simp [Dom.findL] at h
  | d :: ds, x => by
    intro h
    simp only [Dom.findL, List.mem_append] at h
    simp only [Dom.idsL, List.mem_append]
    rcases h with h | h | h
    · left
      by_cases hc : d.hasClass c = true
      · simp only [hc, if_true, List.mem_singleton] at h
        subst h
        cases x; simp [Dom.ids, Dom.id]
      · simp [hc] at h
    · left
      have := Dom.find_ids c d x h
      cases d
      simp only [Dom.ids, Dom.children] at *
      exact List.mem_cons_of_mem _ this
    · right
      exact Dom.findL_ids c ds x h
end

mutual
theorem Dom.find_insertBefore_new (c : String) (n : Nat) (tg : String) (cl : List String)
    (tx : String) (t : Nat) (hc : (Dom.node n tg cl tx []).hasClass c = true) :
    ∀ d : Dom, Dom.find c d = [] →
      Dom.find c (Dom.insertBefore (.node n tg cl tx []) t d)
        = List.replicate ((Dom.idsL d.children).count t) (.node n tg cl tx [])
  | .node _ _ _ _ kids => by
    intro h
    simp only [Dom.find] at h
    simp only [Dom.insertBefore, Dom.find, Dom.children]
    exact Dom.findL_insertBeforeL_new c n tg cl tx t hc kids h
theorem Dom.findL_insertBeforeL_new (c : String) (n : Nat) (tg : String) (cl : List String)
    (tx : String) (t : Nat) (hc : (Dom.node n tg cl tx []).hasClass c = true) :
    ∀ ds : List Dom, Dom.findL c ds = [] →
      Dom.findL c (Dom.insertBeforeL (.node n tg cl tx []) t ds)
        = List.replicate ((Dom.idsL ds).count t) (.node n tg cl tx [])
  | [] => by intro _; simp [Dom.insertBeforeL, Dom.findL, Dom.idsL]
  | d :: ds => by
    intro h
    simp only [Dom.findL, List.append_eq_nil] at h
    have h1 : d.hasClass c = false := by
      by_cases hd : d.hasClass c = true
      · simp [hd] at h
      · simpa using hd
    have ihd := Dom.find_insertBefore_new c n tg cl tx t hc d h.2.1
    have ihs := Dom.findL_insertBeforeL_new c n tg cl tx t hc ds h.2.2
    have hids : (Dom.idsL (d :: ds)).count t
        = (if d.id = t then 1 else 0) + (Dom.idsL d.children).count t + (Dom.idsL ds).count t := by
      cases d with
      | node i a b e kids =>
        simp only [Dom.idsL, Dom.ids, Dom.id, Dom.children, List.count_append, List.count_cons]
        by_cases hi : i = t <;> simp [hi]; omega
    rw [hids]
    by_cases hi : d.id = t
    · have hnew : Dom.find c (.node n tg cl tx []) = [] := by simp [Dom.find, Dom.findL]
      rw [Dom.insertBeforeL, if_pos hi, Dom.findL, Dom.findL, hc, hnew,
        Dom.hasClass_insertBefore, h1, ihd, ihs, if_pos hi]
      simp only [List.replicate_add, List.replicate_one, if_true, Bool.false_eq_true, if_false,
        List.nil_append, List.singleton_append, List.cons_append, List.append_assoc]
    · rw [Dom.insertBeforeL, if_neg hi, Dom.findL,
        Dom.hasClass_insertBefore, h1, ihd, ihs, if_neg hi]
      simp only [List.replicate_add, List.replicate_zero, if_true, Bool.false_eq_true, if_false,
        List.nil_append, List.singleton_append, List.cons_append, List.append_assoc]
end

mutual
theorem Dom.find_insertBefore_other (c : String) (n : Nat) (tg : String) (cl : List String)
    (tx : String) (t : Nat) (hc : (Dom.node n tg cl tx []).hasClass c = false) :
    ∀ d : Dom, Dom.find c (Dom.insertBefore (.node n tg cl tx []) t d)
        = (Dom.find c d).map (Dom.insertBefore (.node n tg cl tx []) t)
  | .node _ _ _ _ kids => by
    simp only [Dom.insertBefore, Dom.find]
    exact Dom.findL_insertBeforeL_other c n tg cl tx t hc kids
theorem Dom.findL_insertBeforeL_other (c : String) (n : Nat) (tg : String) (cl : List String)
    (tx : String) (t : Nat) (hc : (Dom.node n tg cl tx []).hasClass c = false) :
    ∀ ds : List Dom, Dom.findL c (Dom.insertBeforeL (.node n tg cl tx []) t ds)
        = (Dom.findL c ds).map (Dom.insertBefore (.node n tg cl tx []) t)
  | [] => by simp [Dom.insertBeforeL, Dom.findL]
  | d :: ds => by
    have ihd := Dom.find_insertBefore_other c n tg cl tx t hc d
    have ihs := Dom.findL_insertBeforeL_other c n tg cl tx t hc ds
    have hnew : Dom.find c (.node n tg cl tx []) = [] := by simp [Dom.find, Dom.findL]
    by_cases hi : d.id = t
    · rw [Dom.insertBeforeL, if_pos hi, Dom.findL, Dom.findL, hc, hnew,
        Dom.hasClass_insertBefore, ihd, ihs, Dom.findL]
      by_cases hd : d.hasClass c = true <;> simp [hd]
    · rw [Dom.insertBeforeL, if_neg hi, Dom.findL,
        Dom.hasClass_insertBefore, ihd, ihs, Dom.findL]
      by_cases hd : d.hasClass c = true <;> simp [hd]
end

mutual
theorem Dom.find_appendTo_other (c : String) (n : Nat) (tg : String) (cl : List String)
    (tx : String) (t : Nat) (hc : (Dom.node n tg cl tx []).hasClass c = false) :
    ∀ d : Dom, Dom.find c (Dom.appendTo (.node n tg cl tx []) t d)
        = (Dom.find c d).map (Dom.appendTo (.node n tg cl tx []) t)
  | .node i _ _ _ kids => by
    have hnew : Dom.find c (.node n tg cl tx []) = [] := by simp [Dom.find, Dom.findL]
    simp only [Dom.appendTo, Dom.find, Dom.findL_append]
    rw [Dom.findL_appendToL_other c n tg cl tx t hc kids]
    by_cases hi : i = t
    · simp [hi, Dom.findL, hc, hnew]
    · simp [hi, Dom.findL]
theorem Dom.findL_appendToL_other (c : String) (n : Nat) (tg : String) (cl : List String)
    (tx : String) (t : Nat) (hc : (Dom.node n tg cl tx []).hasClass c = false) :
    ∀ ds : List Dom, Dom.findL c (Dom.appendToL (.node n tg cl tx []) t ds)
        = (Dom.findL c ds).map (Dom.appendTo (.node n tg cl tx []) t)
  | [] => by simp [Dom.appendToL, Dom.findL]
  | d :: ds => by
    have ihd := Dom.find_appendTo_other c n tg cl tx t hc d
    have ihs := Dom.findL_appendToL_other c n tg cl tx t hc ds
    rw [Dom.appendToL, Dom.findL, Dom.hasClass_appendTo, ihd, ihs, Dom.findL]
    by_cases hd : d.hasClass c = true <;> simp [hd]
end

theorem Dom.firstIs_insertBeforeL (new : Dom) (t : Nat) (hne : new.id ≠ t) (ds : List Dom) :
    Dom.firstIs t (Dom.insertBeforeL new t ds) = false := by
  cases ds with
  | nil => simp [Dom.insertBeforeL, Dom.firstIs]
  | cons d ds =>
    by_cases hi : d.id = t
    · rw [Dom.insertBeforeL, if_pos hi]
      simp [Dom.firstIs, hne]
    · rw [Dom.insertBeforeL, if_neg hi]
      simp [Dom.firstIs, Dom.id_insertBefore, hi]

theorem Dom.firstIs_appendToL (new : Dom) (a t : Nat) (ds : List Dom) :
    Dom.firstIs t (Dom.appendToL new a ds) = Dom.firstIs t ds := by
  cases ds with
  | nil => simp [Dom.appendToL]
  | cons d ds => simp [Dom.appendToL, Dom.firstIs, Dom.id_appendTo]

mutual
theorem Dom.prev_insertBefore (n : Nat) (tg : String) (cl : List String) (tx : String)
    (t : Nat) (hne : n ≠ t) :
    ∀ d : Dom, Dom.prev t (Dom.insertBefore (.node n tg cl tx []) t d)
        = List.replicate ((Dom.idsL d.children).count t) (.node n tg cl tx [])
  | .node _ _ _ _ kids => by
    simp only [Dom.insertBefore, Dom.prev, Dom.children]
    exact Dom.prevL_insertBeforeL n tg cl tx t hne kids
theorem Dom.prevL_insertBeforeL (n : Nat) (tg : String) (cl : List String) (tx : String)
    (t : Nat) (hne : n ≠ t) :
    ∀ ds : List Dom, Dom.prevL t (Dom.insertBeforeL (.node n tg cl tx []) t ds)
        = List.replicate ((Dom.idsL ds).count t) (.node n tg cl tx [])
  | [] => by simp [Dom.insertBeforeL, Dom.prevL, Dom.idsL]
  | d :: ds => by
    have ihd := Dom.prev_insertBefore n tg cl tx t hne d
    have ihs := Dom.prevL_insertBeforeL n tg cl tx t hne ds
    have hhead := Dom.firstIs_insertBeforeL (.node n tg cl tx []) t hne ds
    have hnew : Dom.prev t (.node n tg cl tx []) = [] := by simp [Dom.prev, Dom.prevL]
    have hids : (Dom.idsL (d :: ds)).count t
        = (if d.id = t then 1 else 0) + (Dom.idsL d.children).count t + (Dom.idsL ds).count t := by
      cases d with
      | node i a b e kids =>
        simp only [Dom.idsL, Dom.ids, Dom.id, Dom.children, List.count_append, List.count_cons]
        by_cases hi : i = t <;> simp [hi]; omega
    have htail : Dom.prevL t (Dom.insertBefore (.node n tg cl tx []) t d
          :: Dom.insertBeforeL (.node n tg cl tx []) t ds)
        = List.replicate ((Dom.idsL d.children).count t) (.node n tg cl tx [])
          ++ List.replicate ((Dom.idsL ds).count t) (.node n tg cl tx []) := by
      rw [Dom.prevL, hhead, ihd, ihs]
      rfl
    rw [hids]
    by_cases hi : d.id = t
    · have hfirst : Dom.firstIs t (Dom.insertBefore (.node n tg cl tx []) t d
          :: Dom.insertBeforeL (.node n tg cl tx []) t ds) = true := by
        simp [Dom.firstIs, Dom.id_insertBefore, hi]
      rw [Dom.insertBeforeL, if_pos hi, Dom.prevL, htail, hnew, if_pos hi, hfirst]
      simp only [if_true, List.replicate_add, List.replicate_one,
        List.nil_append, List.singleton_append, List.cons_append, List.append_assoc]
    · rw [Dom.insertBeforeL, if_neg hi, htail, if_neg hi]
      simp only [List.replicate_add, List.replicate_zero, List.nil_append, List.append_assoc,
        Nat.zero_add]
end

theorem Dom.prevL_snoc (t : Nat) (new : Dom) (hne : new.id ≠ t) (hnew : Dom.prev t new = []) :
    ∀ xs : List Dom, Dom.prevL t (xs ++ [new]) = Dom.prevL t xs
  | [] => by simp [Dom.prevL, hnew, Dom.firstIs]
  | x :: xs => by
    have ih := Dom.prevL_snoc t new hne hnew xs
    have hf : Dom.firstIs t (xs ++ [new]) = Dom.firstIs t xs := by
      cases xs with
      | nil => simp [Dom.firstIs, hne]
      | cons y ys => rfl
    rw [List.cons_append, Dom.prevL, Dom.prevL, ih, hf]

mutual
theorem Dom.prev_appendTo (n : Nat) (tg : String) (cl : List String) (tx : String)
    (a t : Nat) (hne : n ≠ t) :
    ∀ d : Dom, Dom.prev t (Dom.appendTo (.node n tg cl tx []) a d)
        = (Dom.prev t d).map (Dom.appendTo (.node n tg cl tx []) a)
  | .node i _ _ _ kids => by
    have hnew : Dom.prev t (.node n tg cl tx []) = [] := by simp [Dom.prev, Dom.prevL]
    have hne2 : (Dom.node n tg cl tx []).id ≠ t := hne
    simp only [Dom.appendTo, Dom.prev]
    by_cases hi : i = a
    · rw [if_pos hi, Dom.prevL_snoc t _ hne2 hnew]
      exact Dom.prevL_appendToL n tg cl tx a t hne kids
    · rw [if_neg hi, List.append_nil]
      exact Dom.prevL_appendToL n tg cl tx a t hne kids
theorem Dom.prevL_appendToL (n : Nat) (tg : String) (cl : List String) (tx : String)
    (a t : Nat) (hne : n ≠ t) :
    ∀ ds : List Dom, Dom.prevL t (Dom.appendToL (.node n tg cl tx []) a ds)
        = (Dom.prevL t ds).map (Dom.appendTo (.node n tg cl tx []) a)
  | [] => by simp [Dom.appendToL, Dom.prevL]
  | d :: ds => by
    have ihd := Dom.prev_appendTo n tg cl tx a t hne d
    have ihs := Dom.prevL_appendToL n tg cl tx a t hne ds
    rw [Dom.appendToL, Dom.prevL, ihd, ihs, Dom.prevL, Dom.firstIs_appendToL]
    by_cases hf : Dom.firstIs t ds = true <;> simp [hf]
end

theorem Dom.length_appendToL (new : Dom) (a : Nat) (ds : List Dom) :
    (Dom.appendToL new a ds).length = ds.length := by
  induction ds with
  | nil => simp [Dom.appendToL]
  | cons d ds ih => simp [Dom.appendToL, ih]

theorem Dom.children_appendTo_self (new : Dom) (d : Dom) :
    (Dom.appendTo new d.id d).children.length = d.children.length + 1 := by
  cases d with
  | node i t cl tx kids =>
    simp [Dom.appendTo, Dom.children, Dom.id, Dom.length_appendToL]

theorem deleteFormInv_first (sel : String) (s0 : Panel) (p : Dom)
    (hsel : sel ≠ "delete-form")
    (hids : (Dom.ids s0.node).Nodup) (hfresh : ∀ i ∈ Dom.ids s0.node, i < s0.nextId)
    (hloads : s0.loads = [])
    (hnone : Dom.find "delete-form" s0.node = [])
    (hprops : Dom.find sel s0.node = [p]) :
    DeleteFormInv sel s0.nextId p.id 1 (onDeleteItem sel s0) := by
  have hmem : p.id ∈ Dom.idsL s0.node.children :=
    Dom.find_ids sel s0.node p (by rw [hprops]; simp)
  have hsub : Dom.ids s0.node = s0.node.id :: Dom.idsL s0.node.children := by
    cases s0.node; rfl
  have hcount : (Dom.idsL s0.node.children).count p.id = 1 := by
    rw [hsub] at hids
    exact List.count_eq_one_of_mem (List.nodup_cons.mp hids).2 hmem
  have hlt : p.id < s0.nextId := hfresh _ (by rw [hsub]; exact List.mem_cons_of_mem _ hmem)
  have hne : s0.nextId ≠ p.id := by omega
  have hstep : onDeleteItem sel s0
      = { s0 with
          node := Dom.insertBefore (.node s0.nextId "div" ["delete-form"] "" []) p.id s0.node
          nextId := s0.nextId + 1
          loads := [[s0.nextId]] } := by
    simp [onDeleteItem, hnone, hprops, insertBeforeAll, hloads]
  have hc1 : (Dom.node s0.nextId "div" ["delete-form"] "" []).hasClass "delete-form" = true := by
    simp [Dom.hasClass, Dom.classes]
  have hc2 : (Dom.node s0.nextId "div" ["delete-form"] "" []).hasClass sel = false := by
    simp only [Dom.hasClass, Dom.classes]
    simpa using fun h => hsel h
  rw [hstep]
  refine ⟨.node s0.nextId "div" ["delete-form"] "" [], ?_, rfl, ?_, ?_, ?_, ?_, ?_⟩
  · show Dom.find "delete-form" (Dom.insertBefore _ p.id s0.node) = _
    rw [Dom.find_insertBefore_new "delete-form" s0.nextId "div" ["delete-form"] "" p.id hc1
      s0.node hnone, hcount]
    rfl
  · show (Dom.find sel (Dom.insertBefore _ p.id s0.node)).map Dom.id = _
    rw [Dom.find_insertBefore_other sel s0.nextId "div" ["delete-form"] "" p.id hc2 s0.node,
      hprops]
    simp [Dom.id_insertBefore]
  · show Dom.prev p.id (Dom.insertBefore _ p.id s0.node) = _
    rw [Dom.prev_insertBefore s0.nextId "div" ["delete-form"] "" p.id hne s0.node, hcount]
    rfl
  · rfl
  · intro l hl
    simpa using hl
  · show p.id < s0.nextId + 1
    omega

theorem deleteFormInv_deleteItem (sel : String) (n0 pid k : Nat) (s : Panel)
    (h : DeleteFormInv sel n0 pid k s) :
    DeleteFormInv sel n0 pid (k + 1) (onDeleteItem sel s) := by
  obtain ⟨c, hc, hid, hp, hprev, hlen, hl, hlt⟩ := h
  have hstep : onDeleteItem sel s = { s with loads := s.loads ++ [[n0]] } := by
    simp [onDeleteItem, hc, hid]
  rw [hstep]
  refine ⟨c, hc, hid, hp, hprev, ?_, ?_, hlt⟩
  · show c.children.length + (s.loads ++ [[n0]]).length = k + 1
    rw [List.length_append]
    simp only [List.length_singleton]
    omega
  · intro l hmem
    have hmem2 : l ∈ s.loads ++ [[n0]] := hmem
    rcases List.mem_append.mp hmem2 with h1 | h1
    · exact hl l h1
    · simpa using h1

theorem deleteFormInv_loaded (sel : String) (hsel : sel ≠ "underneath") (n0 pid k j : Nat)
    (s : Panel) (h : DeleteFormInv sel n0 pid k s) :
    DeleteFormInv sel n0 pid k (deleteFormLoaded j s) := by
  obtain ⟨c, hc, hid, hp, hprev, hlen, hl, hlt⟩ := h
  cases hj : s.loads[j]? with
  | none =>
    have hstep : deleteFormLoaded j s = s := by simp [deleteFormLoaded, hj]
    rw [hstep]
    exact ⟨c, hc, hid, hp, hprev, hlen, hl, hlt⟩
  | some l =>
    have hl0 : l = [n0] := hl l (List.getElem?_mem hj)
    subst hl0
    have hjlt : j < s.loads.length := by
      obtain ⟨hlt2, -⟩ := List.getElem?_eq_some.mp hj
      exact hlt2
    have hstep : deleteFormLoaded j s
        = { node := Dom.appendTo (.node s.nextId "div" ["underneath"] "" []) n0 s.node
            nextId := s.nextId + 1
            loads := s.loads.eraseIdx j
            attached := s.attached ++ [s.nextId] } := by
      simp [deleteFormLoaded, hj, appendToAll]
    have hc1 : (Dom.node s.nextId "div" ["underneath"] "" []).hasClass "delete-form" = false := by
      simp [Dom.hasClass, Dom.classes]
    have hc2 : (Dom.node s.nextId "div" ["underneath"] "" []).hasClass sel = false := by
      simp only [Dom.hasClass, Dom.classes]
      simpa using fun h => hsel h
    have hne : s.nextId ≠ pid := by omega
    rw [hstep]
    refine ⟨Dom.appendTo (.node s.nextId "div" ["underneath"] "" []) n0 c, ?_, ?_, ?_, ?_, ?_,
      ?_, ?_⟩
    · show Dom.find "delete-form" (Dom.appendTo _ n0 s.node) = _
      rw [Dom.find_appendTo_other "delete-form" s.nextId "div" ["underneath"] "" n0 hc1 s.node,
        hc]
      rfl
    · rw [Dom.id_appendTo, hid]
    · show (Dom.find sel (Dom.appendTo _ n0 s.node)).map Dom.id = _
      rw [Dom.find_appendTo_other sel s.nextId "div" ["underneath"] "" n0 hc2 s.node, ← hp,
        List.map_map]
      congr 1
      funext d
      exact Dom.id_appendTo _ _ d
    · show Dom.prev pid (Dom.appendTo _ n0 s.node) = _
      rw [Dom.prev_appendTo s.nextId "div" ["underneath"] "" n0 pid hne s.node, hprev]
      rfl
    · show (Dom.appendTo _ n0 c).children.length + (s.loads.eraseIdx j).length = k
      rw [← hid, Dom.children_appendTo_self, List.length_eraseIdx_of_lt hjlt]
      omega
    · intro l hmem
      exact hl l (List.mem_of_mem_eraseIdx hmem)
    · show pid < s.nextId + 1
      omega

theorem runPanel_snoc (sel : String) (s : Panel) (t : List PanelStep) (a : PanelStep) :
    runPanel sel s (t ++ [a]) = panelStep sel (runPanel sel s t) a := by
  simp [runPanel, List.foldl_append]

theorem deleteItems_snoc (t : List PanelStep) (a : PanelStep) :
    deleteItems (t ++ [a]) = deleteItems t + (if a = PanelStep.deleteItem then 1 else 0) := by
  simp only [deleteItems, List.count_append, List.count_cons, List.count_nil, Nat.zero_add]
  cases a <;> simp

theorem runPanel_deleteForm (sel : String) (s0 : Panel) (p : Dom)
    (hsel1 : sel ≠ "delete-form") (hsel2 : sel ≠ "underneath")
    (hids : (Dom.ids s0.node).Nodup) (hfresh : ∀ i ∈ Dom.ids s0.node, i < s0.nextId)
    (hloads : s0.loads = [])
    (hnone : Dom.find "delete-form" s0.node = [])
    (hprops : Dom.find sel s0.node = [p]) (t : List PanelStep) :
    (deleteItems t = 0 ∧ runPanel sel s0 t = s0)
    ∨ (1 ≤ deleteItems t
        ∧ DeleteFormInv sel s0.nextId p.id (deleteItems t) (runPanel sel s0 t)) := by
  induction t using List.reverseRecOn with
  | nil => left; exact ⟨rfl, rfl⟩
  | append_singleton t a ih =>
    rw [runPanel_snoc, deleteItems_snoc]
    rcases ih with ⟨h0, hs⟩ | ⟨h1, hinv⟩
    · rw [hs, h0]
      cases a with
      | deleteItem =>
        right
        exact ⟨by simp, by
          simpa using deleteFormInv_first sel s0 p hsel1 hids hfresh hloads hnone hprops⟩
      | loaded j =>
        left
        refine ⟨by simp, ?_⟩
        simp [panelStep, deleteFormLoaded, hloads]
    · right
      cases a with
      | deleteItem =>
        exact ⟨by simp, by
          simpa using deleteFormInv_deleteItem sel s0.nextId p.id _ _ hinv⟩
      | loaded j =>
        exact ⟨by simpa using h1, by
          simpa using deleteFormInv_loaded sel hsel2 s0.nextId p.id _ j _ hinv⟩

/-- C10: on a component whose subtree has no delete-form container and exactly
one properties region (elements have distinct identities, new elements get fresh
ones, no load is pending), after any trace with k ≥ 1 `deleteItem` events and
completions of their loads the subtree has exactly one delete-form container:
the element created by the first event (before it there is none), right before
the properties region; every pending load has captured this container and
each completed load has added one child to it, so the children and the pending
loads add up to k and, every load having completed, the container has exactly
k children. -/
theorem deleteItem_single_container (sel : String) (s0 : Panel) (p : Dom)
    (hsel1 : sel ≠ "delete-form") (hsel2 : sel ≠ "underneath")
    (hids : (Dom.ids s0.node).Nodup) (hfresh : ∀ i ∈ Dom.ids s0.node, i < s0.nextId)
    (hloads : s0.loads = [])
    (hnone : Dom.find "delete-form" s0.node = [])
    (hprops : Dom.find sel s0.node = [p]) (t : List PanelStep) :
    (deleteItems t = 0 → Dom.find "delete-form" (runPanel sel s0 t).node = [])
    ∧ (1 ≤ deleteItems t →
        ∃ c, Dom.find "delete-form" (runPanel sel s0 t).node = [c]
          ∧ c.id = s0.nextId
          ∧ (Dom.find sel (runPanel sel s0 t).node).map Dom.id = [p.id]
          ∧ Dom.prev p.id (runPanel sel s0 t).node = [c]
          ∧ (∀ l ∈ (runPanel sel s0 t).loads, l = [c.id])
          ∧ c.children.length + (runPanel sel s0 t).loads.length = deleteItems t
          ∧ ((runPanel sel s0 t).loads = [] → c.children.length = deleteItems t)) := by
  rcases runPanel_deleteForm sel s0 p hsel1 hsel2 hids hfresh hloads hnone hprops t with
    ⟨h0, hs⟩ | ⟨h1, c, hc, hid, hp, hprev, hlen, hcap, -⟩
  · refine ⟨fun _ => by rw [hs]; exact hnone, fun h => ?_⟩
    omega
  · refine ⟨fun h => ?_, fun _ => ⟨c, hc, hid, hp, hprev, ?_, hlen, fun hl => ?_⟩⟩
    · omega
    · rw [hid]; exact hcap
    · rw [hl] at hlen
      simpa using hlen

theorem deleteItem_single_container_witness :
    ∃ c, Dom.find "delete-form"
        (runPanel "properties"
          ⟨.node 0 "div" [] "" [.node 1 "h1" [] "t" [], .node 2 "div" ["properties"] "" []],
            3, [], []⟩
          [.deleteItem, .deleteItem, .loaded 1, .loaded 0]).node = [c]
      ∧ c.id = 3 ∧ c.children.length = 2 := by
  obtain ⟨c, hc, hid, -, -, -, -, hk⟩ :=
    (deleteItem_single_container "properties"
      ⟨.node 0 "div" [] "" [.node 1 "h1" [] "t" [], .node 2 "div" ["properties"] "" []],
        3, [], []⟩
      (.node 2 "div" ["properties"] "" [])
      (by decide) (by decide) (by decide) (by decide) rfl rfl rfl
      [.deleteItem, .deleteItem, .loaded 1, .loaded 0]).2 (by decide)
  exact ⟨c, hc, hid, hk rfl⟩

end WithTypeContent
